import Mathlib

/-!
# launcher2: PID-file handle and lifecycle controller

A shallow embedding of `launcher2/process/process.go` and of the parts of
`launcher2/main.go` that deal with termination, argument rewriting and `-D`
property parsing, followed by theorems about them.

Conventions of the embedding.

* A Go `string` read from or written to the PID file is a list of bytes, each
  byte a natural number. A command-line argument is a list of characters (the
  arguments are taken to be valid UTF-8 text).
* A Go `panic` is the `Except.error` branch of a result; the state reached at
  the moment of the panic is returned next to it.
* The machine outside this process (the lock table as far as other processes
  are concerned, the process table, the outcome of fallible file-system calls)
  is an `Env`: for every value of a logical clock it gives the answers the
  kernel would give at that moment. Every system call that consults the
  outside advances the clock by one.
* Reading and seeking the open regular file, and truncating it, are total in
  the model. Other processes do not write the PID file.
-/

namespace Launcher2

/-! ## Bytes and text -/

/-- A byte string of Go (a `string` or a `[]byte`), each byte as its numeric
value. -/
abbrev Bytes := List Nat

/-- Bytes of an ASCII text. -/
def ascii (s : String) : Bytes := s.toList.map Char.toNat

/-- Error numbers of the system calls used by the launcher. -/
inductive Errno
  | EWOULDBLOCK | ESRCH | EPERM | EINVAL | EEXIST | EACCES | ENOSPC | EINTR
  deriving DecidableEq, Repr

/-! ## strconv -/

/-- The two error kinds of package strconv. -/
inductive NumError
  | ErrSyntax | ErrRange
  deriving DecidableEq, Repr

/-- Largest value of a `uint64`. -/
def maxUint64 : Nat := 2 ^ 64 - 1

/-- Conversion of an integer to `int64`, two's complement wrap-around. -/
def wrap64 (z : Int) : Int := (z + 2 ^ 63) % 2 ^ 64 - 2 ^ 63

/-- The digit loop of `strconv.ParseUint(s, 10, 64)`, `n` being the accumulator.
For base 10 every byte that is not an ASCII digit is a syntax error (letters
give a digit value of at least 10, the underscore is only accepted in base 0).
On a range error Go returns the maximal value together with the error. -/
def ParseUintLoop : Bytes → Nat → Nat × Option NumError
  | [], n => (n, none)
  | c :: cs, n =>
    if 48 ≤ c ∧ c ≤ 57 then
      let d := c - 48
      -- cutoff is the smallest number such that cutoff*base > maxUint64
      if n ≥ maxUint64 / 10 + 1 then (maxUint64, some .ErrRange)
      else
        let n10 := n * 10
        let n1 := (n10 + d) % 2 ^ 64
        if n1 < n10 ∨ n1 > maxUint64 then (maxUint64, some .ErrRange)
        else ParseUintLoop cs n1
    else (0, some .ErrSyntax)

/-- Go's `strconv.ParseUint(s, 10, 64)`. -/
def ParseUint (s : Bytes) : Nat × Option NumError :=
  if s = [] then (0, some .ErrSyntax) else ParseUintLoop s 0

/-- Go's `strconv.ParseInt(s, 10, 0)` on a platform whose `int` has 64 bits. -/
def ParseInt (s : Bytes) : Int × Option NumError :=
  match s with
  | [] => (0, some .ErrSyntax)
  | c :: cs =>
    -- pick off leading sign
    let neg : Bool := c = 45
    let body := if c = 43 ∨ c = 45 then cs else s
    let (un, err) := ParseUint body
    if err ≠ none ∧ err ≠ some .ErrRange then (0, err)
    else
      let cutoff : Nat := 2 ^ 63
      if neg = false ∧ un ≥ cutoff then ((cutoff : Int) - 1, some .ErrRange)
      else if neg = true ∧ un > cutoff then (-(cutoff : Int), some .ErrRange)
      else
        let n := wrap64 un
        (if neg then wrap64 (-n) else n, none)

/-- The digit loop of the fast path of `strconv.Atoi`; `none` is the syntax
error. For a byte `ch`, Go's test `ch -= 48; ch > 9` with wrapping byte
subtraction holds exactly when `ch` is not an ASCII digit. -/
def AtoiFastLoop : Bytes → Int → Option Int
  | [], n => some n
  | ch :: cs, n =>
    if 48 ≤ ch ∧ ch ≤ 57 then AtoiFastLoop cs (wrap64 (n * 10 + ((ch - 48 : Nat) : Int)))
    else none

/-- Go's `strconv.Atoi` on a platform whose `int` has 64 bits: a fast path for
texts of 1 to 18 bytes, `ParseInt` for the rest. -/
def Atoi (s : Bytes) : Int × Option NumError :=
  if 0 < s.length ∧ s.length < 19 then
    match s with
    | [] => (0, some .ErrSyntax)
    | c0 :: rest =>
      let signed : Bool := c0 = 45 ∨ c0 = 43
      let body := if signed then rest else s
      if signed = true ∧ body.length < 1 then (0, some .ErrSyntax)
      else
        match AtoiFastLoop body 0 with
        | none => (0, some .ErrSyntax)
        | some n => (if c0 = 45 then wrap64 (-n) else n, none)
  else ParseInt s

/-- Go's `fmt.Sprintf("%d", n)`. -/
def sprintD (n : Int) : String :=
  if n < 0 then "-" ++ Nat.repr n.natAbs else Nat.repr n.natAbs

/-! ## bufio -/

/-- Default size of the buffer of a `bufio.Reader`. -/
def bufferSize : Nat := 4096

/-- Errors a read through a `bufio.Reader` over the PID file can end with. -/
inductive ReadErr
  | EOF | ErrBufferFull
  deriving DecidableEq, Repr

/-- Go's `bufio.Reader.ReadSlice(10)` on a fresh reader over a regular file
whose bytes from the current offset on are `data`. The reader fills its buffer
with up to `bufferSize` bytes; the slice ends at the first newline in the
buffer, or is the whole buffer with `ErrBufferFull` when the buffer is full and
holds no newline, or is what is left of the file with `EOF`. -/
def ReadSlice (data : Bytes) : Bytes × Option ReadErr :=
  let buf := data.take bufferSize
  let pre := buf.takeWhile (fun b => b ≠ 10)
  if pre.length < buf.length then (pre ++ [10], none)
  else if bufferSize ≤ buf.length then (buf, some .ErrBufferFull)
  else (buf, some .EOF)

/-- Go's `bufio.Reader.ReadLine` on a fresh reader: the line without its end
of line, the `isPrefix` flag, and the error. -/
def ReadLine (data : Bytes) : Bytes × Bool × Option ReadErr :=
  let (line, err) := ReadSlice data
  if err = some .ErrBufferFull then
    -- the case where "\r\n" straddles the buffer
    if line.length > 0 ∧ line.getLast? = some 13 then (line.dropLast, true, none)
    else (line, true, none)
  else if line.length = 0 then ([], false, err)
  else if line.getLast? = some 10 then
    let drop := if line.length > 1 ∧ line.get? (line.length - 2) = some 13 then 2 else 1
    (line.take (line.length - drop), false, none)
  else (line, false, none)

/-! ## The machine -/

/-- Answers of the outside world at one moment. -/
structure Ext where
  /-- Another open file description holds the lock on the PID file. -/
  otherHolds : Bool
  /-- Outcome of `kill(pid, sig)`. -/
  kill : Int → Nat → Option Errno
  /-- Outcome of `os.MkdirAll` on the directory of the PID file. -/
  mkdirAll : Option Errno
  /-- Outcome of `os.OpenFile` on the PID file. -/
  openFile : Option Errno
  /-- A failing write: the number of bytes written before the error. -/
  writeFault : Option (Nat × Errno)
  /-- Outcome of `fsync`. -/
  syncFault : Option Errno

/-- The outside world along the logical clock. -/
abbrev Env := Nat → Ext

/-- State of the PID file, of the descriptor of this process, and the record
of what this process did. -/
structure Sys where
  /-- Bytes of the PID file (empty when it does not exist yet). -/
  content : Bytes
  /-- Offset of the open file description. -/
  offset : Nat
  /-- This process holds the lock through its descriptor. -/
  weHold : Bool
  /-- Logical clock. -/
  clock : Nat
  /-- Every `kill(pid, sig)` call made, oldest first. -/
  kills : List (Int × Nat)
  /-- Number of reads of the file content. -/
  reads : Nat
  /-- What was printed on standard output, oldest first. -/
  out : List String
  deriving DecidableEq, Repr

deriving instance DecidableEq for Except

/-- Payload of a panic. -/
inductive Fatal
  /-- Payload `panic(err)` with an operating-system error. -/
  | sys (e : Errno)
  /-- Message "pid file not locked by us". -/
  | notLockedByUs
  /-- Message "pid file is locked by us". -/
  | lockedByUs
  /-- Payload `panic(io.EOF)`. -/
  | eof
  /-- Message "pid file ... contains garbage". -/
  | garbage (line : Bytes)
  /-- Message "pid file ... contains an invalid pid". -/
  | invalidPid (pid : Int)
  /-- Message of `Alive`: "signaling pid %d failed". -/
  | probeFailed (pid : Int) (e : Errno)
  /-- Message of `terminate`: "Signaling pid %d failed". -/
  | signalFailed (pid : Int) (e : Errno)
  deriving DecidableEq, Repr

/-- Advance the clock. -/
def tick (s : Sys) : Sys := { s with clock := s.clock + 1 }

/-- The call `flock(fd, LOCK_EX|LOCK_NB)` on the descriptor of this process:
succeeds when the descriptor already holds the lock or nobody else does, fails
with `EWOULDBLOCK` otherwise. -/
def flock (env : Env) (s : Sys) : Option Errno × Sys :=
  if s.weHold then (none, tick s)
  else if (env s.clock).otherHolds then (some .EWOULDBLOCK, tick s)
  else (none, { tick s with weHold := true })

/-- The call `kill(pid, sig)`; signal 0 is the existence probe. -/
def Kill (env : Env) (pid : Int) (sig : Nat) (s : Sys) : Option Errno × Sys :=
  ((env s.clock).kill pid sig, { tick s with kills := s.kills ++ [(pid, sig)] })

/-- Bytes of a file after `bytes` are written at offset `off`; a gap between
the end of the file and `off` reads as zero bytes. -/
def writeAt (content : Bytes) (off : Nat) (bytes : Bytes) : Bytes :=
  content.take off ++ List.replicate (off - content.length) 0 ++ bytes
    ++ content.drop (off + bytes.length)

/-- Method `(*os.File).WriteString`: a short write comes with an error. -/
def WriteString (env : Env) (bytes : Bytes) (s : Sys) : Option Errno × Sys :=
  match (env s.clock).writeFault with
  | some (k, err) =>
    let w := bytes.take k
    (some err, { tick s with content := writeAt s.content s.offset w,
                             offset := s.offset + w.length })
  | none =>
    (none, { tick s with content := writeAt s.content s.offset bytes,
                         offset := s.offset + bytes.length })

/-- Method `(*os.File).Sync`. -/
def Sync (env : Env) (s : Sys) : Option Errno × Sys :=
  ((env s.clock).syncFault, tick s)

/-! ## package process -/

/-- The handle; its `pidFile` is the descriptor whose state is in `Sys`. -/
structure Process where
  path : String
  locked : Bool
  deriving DecidableEq, Repr

/-- Source function `tryLock`. -/
def tryLock (env : Env) (s : Sys) : Bool × Sys :=
  match flock env s with
  | (none, s1) => (true, s1)
  | (some _, s1) => (false, s1)

/-- Source function `openPidfile`: open (creating if needed, without
truncation), then take the lock; a failure of either is returned. The
descriptor is a new one: a lock that this process already holds through an
earlier descriptor stands in its way like the lock of another process. -/
def openPidfile (env : Env) (s : Sys) : Option Errno × Sys :=
  match (env s.clock).openFile with
  | some err => (some err, tick s)
  | none =>
    if s.weHold then (some .EWOULDBLOCK, tick (tick s))
    else
      match flock env { tick s with offset := 0 } with
      | (some err, s1) => (some err, s1)
      | (none, s1) => (none, s1)

/-- Source method `Refresh`. -/
def Refresh (env : Env) (p : Process) (s : Sys) : Process × Sys :=
  let (b, s1) := tryLock env s
  ({ p with locked := b }, s1)

/-- Source function `NewProcessInstance`. -/
def NewProcessInstance (env : Env) (path : String) (s : Sys) : Except Fatal Process × Sys :=
  -- an error of MkdirAll for which os.IsExist does not hold is fatal
  match ((env s.clock).mkdirAll).filter (fun err => err ≠ .EEXIST) with
  | some err => (.error (.sys err), tick s)
  | none =>
    match openPidfile env (tick s) with
    | (some err, s1) => (.error (.sys err), s1)
    | (none, s1) =>
      let (p, s2) := Refresh env { path := path, locked := false } s1
      (.ok p, s2)

/-- Source method `ClearPid`: `Seek(0, 0)` then `Truncate(0)`, both results
discarded by the source. -/
def ClearPid (p : Process) (s : Sys) : Except Fatal Unit × Sys :=
  if p.locked = false then (.error .notLockedByUs, s)
  else (.ok (), { { s with offset := 0 } with content := [] })

/-- Source method `WritePid`; the value is the returned `error`. -/
def WritePid (env : Env) (p : Process) (pid : Int) (s : Sys) :
    Except Fatal (Option Errno) × Sys :=
  match ClearPid p s with
  | (.error f, s1) => (.error f, s1)
  | (.ok (), s1) =>
    match WriteString env (ascii (sprintD pid ++ "\n")) s1 with
    | (some err, s2) => (.ok (some err), s2)
    | (none, s2) =>
      match Sync env s2 with
      | (some err, s3) => (.ok (some err), s3)
      | (none, s3) => (.ok none, s3)

/-- Source method `ReadPid`. The reader takes one buffer-full from offset 0. -/
def ReadPid (p : Process) (s : Sys) : Except Fatal Int × Sys :=
  if p.locked then (.error .lockedByUs, s)
  else
    let s1 := { s with offset := min s.content.length bufferSize, reads := s.reads + 1 }
    match ReadLine s.content with
    | (_, _, some _) => (.error .eof, s1)
    | (line, _, none) =>
      match Atoi line with
      | (_, some _) => (.error (.garbage line), s1)
      | (pid, none) =>
        if pid ≤ 0 then (.error (.invalidPid pid), s1)
        else (.ok pid, s1)

/-- Source method `Alive`. -/
def Alive (env : Env) (p : Process) (s : Sys) : Except Fatal Bool × Process × Sys :=
  let (p1, s1) := Refresh env p s
  if p1.locked then (.ok false, p1, s1)
  else
    match ReadPid p1 s1 with
    | (.error f, s2) => (.error f, p1, s2)
    | (.ok pid, s2) =>
      match Kill env pid 0 s2 with
      | (some err, s3) => (.error (.probeFailed pid err), p1, s3)
      | (none, s3) => (.ok true, p1, s3)

/-! ## package main: termination -/

/-- Signal number of `syscall.SIGTERM`. -/
def SIGTERM : Nat := 15

/-- Signal number of `syscall.SIGKILL`. -/
def SIGKILL : Nat := 9

/-- Effect of `fmt.Printf` with the formatted text `text`. -/
def Printf (text : String) (s : Sys) : Sys := { s with out := s.out ++ [text] }

/-- The `for` loop of source function `terminate`; `none` means that the loop
is still running after `fuel` iterations (the source has no bound). The sleep
of 100ms between two iterations has no effect of its own: the outside world
is read along the clock. -/
def terminateLoop (env : Env) (signal : Nat) (pid : Int) :
    Nat → Process → Sys → Option (Except Fatal Unit × Process × Sys)
  | 0, _, _ => none
  | fuel + 1, p, s =>
    match Kill env pid signal s with
    | (err, s1) =>
      -- err != nil && err != syscall.ESRCH
      match err.filter (fun e => e ≠ .ESRCH) with
      | some e => some (.error (.signalFailed pid e), p, s1)
      | none =>
        match Alive env p s1 with
        | (.error f, p2, s2) => some (.error f, p2, s2)
        | (.ok false, p2, s2) =>
          match ClearPid p2 s2 with
          | (.error f, s3) => some (.error f, p2, s3)
          | (.ok (), s3) => some (.ok (), p2, s3)
        | (.ok true, p2, s2) => terminateLoop env signal pid fuel p2 s2

/-- Source function `terminate`. -/
def terminate (env : Env) (fuel : Nat) (p : Process) (signal : Nat) (message : String)
    (s : Sys) : Option (Except Fatal Unit × Process × Sys) :=
  match Alive env p s with
  | (.error f, p1, s1) => some (.error f, p1, s1)
  | (.ok false, p1, s1) => some (.ok (), p1, Printf "Not running" s1)
  | (.ok true, p1, s1) =>
    match ReadPid p1 s1 with
    | (.error f, s2) => some (.error f, p1, s2)
    | (.ok pid, s2) =>
      match terminateLoop env signal pid fuel p1 s2 with
      | none => none
      | some (.error f, p3, s3) => some (.error f, p3, s3)
      | some (.ok (), p3, s3) =>
        some (.ok (), p3, Printf (message ++ " " ++ sprintD pid ++ "\n") s3)

/-- Source function `stop`. -/
def stop (env : Env) (fuel : Nat) (p : Process) (s : Sys) :
    Option (Except Fatal Unit × Process × Sys) :=
  terminate env fuel p SIGTERM "Stopped" s

/-- Source function `kill`. -/
def kill (env : Env) (fuel : Nat) (p : Process) (s : Sys) :
    Option (Except Fatal Unit × Process × Sys) :=
  terminate env fuel p SIGKILL "Killed" s

/-! ## package main: arguments -/

/-- A command-line argument. -/
abbrev GoString := List Char

/-- Go's `strings.HasPrefix`. -/
def HasPrefix (s pre : GoString) : Bool :=
  decide (s.length ≥ pre.length) && decide (s.take pre.length = pre)

/-- Source function `insert`; every call has `index ≤ len(a)`. -/
def insert (a : List GoString) (index : Nat) (value : GoString) : List GoString :=
  if a.length = index then a ++ [value]
  else (a.take (index + 1) ++ a.drop index).set index value

/-- The loop `for i := range args` of source function `transformArgs`. The
range expression is evaluated once, so the number of iterations `k` is the
length the slice had before the loop, while `args[i]` reads the slice as it
is now. -/
def transformArgsLoop : Nat → Nat → List GoString → List GoString
  | 0, _, args => args
  | k + 1, i, args =>
    match args.get? i with
    | none => args
    | some a =>
      if HasPrefix a "-D".toList || HasPrefix a "-J".toList then
        let key := a.take 2
        let value := a.drop 2
        transformArgsLoop k (i + 1) (insert (args.set i key) (i + 1) value)
      else transformArgsLoop k (i + 1) args

/-- Source function `transformArgs`. -/
def transformArgs (args : List GoString) : List GoString :=
  transformArgsLoop args.length 0 args

/-- The rewriting of an argument list as the specification words it: each
argument that begins with "-D" or "-J" becomes the two-character flag followed
by the remainder, every other argument is kept. -/
def splitFlagArgs (args : List GoString) : List GoString :=
  args.flatMap fun a =>
    if HasPrefix a "-D".toList || HasPrefix a "-J".toList then [a.take 2, a.drop 2] else [a]

/-! ## package main: `-D` properties -/

/-- Go's `unicode.IsSpace`. -/
def IsSpace (c : Char) : Bool :=
  let n := c.toNat
  n = 0x09 || n = 0x0A || n = 0x0B || n = 0x0C || n = 0x0D || n = 0x20 || n = 0x85
    || n = 0xA0 || n = 0x1680 || (0x2000 ≤ n && n ≤ 0x200A) || n = 0x2028 || n = 0x2029
    || n = 0x202F || n = 0x205F || n = 0x3000

/-- Go's `strings.TrimSpace`. -/
def TrimSpace (s : GoString) : GoString :=
  ((s.dropWhile IsSpace).reverse.dropWhile IsSpace).reverse

/-- Go's `strings.Contains(s, "=")`. -/
def ContainsEq : GoString → Bool
  | [] => false
  | c :: cs => c = '=' || ContainsEq cs

/-- Go's `strings.SplitN(s, "=", 2)` on a text that contains "=": the text
before the first "=" and the text after it. -/
def SplitN2 : GoString → GoString × GoString
  | [] => ([], [])
  | c :: cs => if c = '=' then ([], cs) else ((SplitN2 cs).1.cons c, (SplitN2 cs).2)

/-- A Go `map[string]string`, as an association list with distinct keys. -/
abbrev GoMap := List (GoString × GoString)

/-- The assignment `m[key] = value`. -/
def GoMap.set (m : GoMap) (key value : GoString) : GoMap :=
  (key, value) :: m.filter (fun kv => kv.1 ≠ key)

/-- The read `m[key]` with presence flag. -/
def GoMap.get (m : GoMap) (key : GoString) : Option GoString :=
  (m.find? (fun kv => kv.1 = key)).map (fun kv => kv.2)

/-- Panics of `parseProperties`. -/
inductive PropPanic
  /-- Message "property is malformed". -/
  | malformed (arg : GoString)
  /-- Message "cannot specify config using -D option (use --config)". -/
  | config
  /-- Message "cannot specify server log using -D option (use --server-log-file)". -/
  | serverLog
  /-- Message "cannot specify log levels using -D option (use --log-levels-file)". -/
  | logLevels
  deriving DecidableEq, Repr

/-- The loop of source function `parseProperties`, `properties` being the map
built so far. -/
def parsePropertiesLoop : List GoString → GoMap → Except PropPanic GoMap
  | [], properties => .ok properties
  | arg :: args, properties =>
    if ContainsEq arg = false then .error (.malformed arg)
    else
      let kv := SplitN2 arg
      let key := TrimSpace kv.1
      let value := TrimSpace kv.2
      if key = "config".toList then .error .config
      else if key = "log.output-file".toList then .error .serverLog
      else if key = "log.levels-file".toList then .error .logLevels
      else parsePropertiesLoop args (properties.set key value)

/-- Source function `parseProperties`. -/
def parseProperties (args : List GoString) : Except PropPanic GoMap :=
  parsePropertiesLoop args []

/-! ## Specification-side notions -/

/-- The byte is an ASCII decimal digit. -/
def isDigit (c : Nat) : Bool := decide (48 ≤ c) && decide (c ≤ 57)

/-- Value of a run of decimal digits read after the accumulated value `n`. -/
def valueFrom (n : Nat) (ds : Bytes) : Nat :=
  ds.foldl (fun a c => a * 10 + (c - 48)) n

/-- The text is a decimal numeral: an optional sign followed by one or more
decimal digits. -/
def isNumeral (line : Bytes) : Bool :=
  match line with
  | [] => false
  | c :: cs =>
    if c = 43 ∨ c = 45 then !cs.isEmpty && cs.all isDigit
    else line.all isDigit

/-- The integer a decimal numeral denotes. -/
def denotes (line : Bytes) : Int :=
  match line with
  | [] => 0
  | c :: cs =>
    if c = 45 then -(valueFrom 0 cs : Int)
    else if c = 43 then (valueFrom 0 cs : Int)
    else (valueFrom 0 line : Int)

/-- The first line of a text: the bytes before the first newline, without the
carriage return that may precede that newline. -/
def firstLine (content : Bytes) : Bytes :=
  let l := content.takeWhile (fun b => b ≠ 10)
  if l.length < content.length ∧ l.getLast? = some 13 then l.dropLast else l

/-- What the specification asks of `ReadPid` on the content of the file: failure
when the first line is missing, is not numeric or denotes an integer that is
not positive, the denoted integer otherwise. -/
def readPidSpec (content : Bytes) : Option Int :=
  if content = [] then none
  else if isNumeral (firstLine content) = false then none
  else if denotes (firstLine content) ≤ 0 then none
  else some (denotes (firstLine content))

/-! ## Concrete machines used in the examples -/

/-- A fresh state of this process over a PID file with the given bytes. -/
def sysOf (content : Bytes) : Sys :=
  { content := content, offset := 0, weHold := false, clock := 0, kills := [],
    reads := 0, out := [] }

/-- Answers of a world in which nothing fails; `held` says whether another
process holds the lock and `probe` is the outcome of every `kill`. -/
def extOf (held : Bool) (probe : Option Errno) : Ext :=
  { otherHolds := held, kill := fun _ _ => probe, mkdirAll := none, openFile := none,
    writeFault := none, syncFault := none }

/-- A handle that does not hold the lock. -/
def unlockedHandle : Process := { path := "/var/run/launcher.pid", locked := false }

/-- A handle that holds the lock. -/
def lockedHandle : Process := { path := "/var/run/launcher.pid", locked := true }

/-! ## Further notions used in the statements -/

/-- A first line of 4098 bytes: 4095 zeros, then "123". -/
def longLine : Bytes := List.replicate 4095 48 ++ ascii "123\n"

/-- A world in which another process holds the lock and every call succeeds. -/
def envBusy : Env := fun _ => extOf true none

/-- A world in which another process holds the lock and the PID on file
belongs to no process. -/
def envStale : Env := fun _ => extOf true (some .ESRCH)

/-- A world in which nobody else holds the lock and every call succeeds. -/
def envFree : Env := fun _ => extOf false none

/-- The send of one round of the loop does not panic: the signal was delivered
or there is no such process. -/
def sendOk (r : Option Errno) : Bool := decide (r = none) || decide (r = some .ESRCH)

/-- The world lets the loop of `terminate` end after `n` full rounds, the
first signal being sent at clock `c`: in each of the `n` rounds the send does
not panic, the lock is still held by the other process and the probe of `pid`
succeeds; in the round after them the send does not panic and the lock is
free. -/
def diesAfter (env : Env) (pid : Int) (signal : Nat) : Nat → Nat → Bool
  | 0, c => sendOk ((env c).kill pid signal) && !(env (c + 1)).otherHolds
  | n + 1, c =>
    sendOk ((env c).kill pid signal) && (env (c + 1)).otherHolds
      && decide ((env (c + 2)).kill pid 0 = none) && diesAfter env pid signal n (c + 3)

/-- The `kill` calls of the loop when it ends after `n` full rounds. -/
def roundKills (pid : Int) (signal : Nat) : Nat → List (Int × Nat)
  | 0 => [(pid, signal)]
  | n + 1 => (pid, signal) :: (pid, 0) :: roundKills pid signal n

/-- The state in which the loop of `terminate` ends after `n` full rounds. -/
def afterLoop (s : Sys) (pid : Int) (signal : Nat) (n : Nat) : Sys :=
  { content := [], offset := 0, weHold := true, clock := s.clock + 3 * n + 2,
    kills := s.kills ++ roundKills pid signal n, reads := s.reads + n, out := s.out }

/-- The state in which `terminate` returns when its loop ends after `n` full
rounds. -/
def afterTerminate (s : Sys) (pid : Int) (signal : Nat) (message : String) (n : Nat) : Sys :=
  { content := [], offset := 0, weHold := true, clock := s.clock + 3 * n + 4,
    kills := s.kills ++ (pid, 0) :: roundKills pid signal n, reads := s.reads + n + 2,
    out := s.out ++ [message ++ " " ++ sprintD pid ++ "\n"] }

/-- The state in which the last `Alive()` check of such a run is made: right
after the last signal, the lock not held by this process, the file untouched. -/
def lastCheck (s : Sys) (pid : Int) (signal : Nat) (n : Nat) : Sys :=
  { content := s.content, offset := min s.content.length bufferSize, weHold := false,
    clock := s.clock + 3 * n + 3, kills := s.kills ++ (pid, 0) :: roundKills pid signal n,
    reads := s.reads + n + 2, out := s.out }

/-- What a returning run of `terminate(signal, message)` that found the
process alive is, from the state `s` and the handle `p` to the state `s'` and
the handle `p'`. -/
def KilledAndCleared (env : Env) (fuel : Nat) (signal : Nat) (message : String) (s : Sys)
    (p p' : Process) (s' : Sys) : Prop :=
  ∃ (pid : Int) (n : Nat),
    -- `pid` is the PID read from the file before the loop
    (ReadPid (Alive env p s).2.1 (Alive env p s).2.2).1 = .ok pid ∧
    -- the loop made `n` full rounds and ended in the round after them
    n < fuel ∧ diesAfter env pid signal n (s.clock + 2) = true ∧
    -- the `kill` calls: the probe of the first `Alive()`, then the rounds
    s'.kills = s.kills ++ (pid, 0) :: roundKills pid signal n ∧
    (∀ e ∈ roundKills pid signal n, e = (pid, signal) ∨ e = (pid, 0)) ∧
    (pid, signal) ∈ roundKills pid signal n ∧
    (roundKills pid signal n).getLast? = some (pid, signal) ∧
    -- the last `Alive()` check, made right after the last signal, took the
    -- lock and returned false
    Alive env p (lastCheck s pid signal n)
      = (.ok false, p', { lastCheck s pid signal n with
          weHold := true, clock := (lastCheck s pid signal n).clock + 1 }) ∧
    s'.weHold = true ∧ p'.locked = true ∧
    -- the file is empty and the report names the PID
    s'.content = [] ∧ s'.out = s.out ++ [message ++ " " ++ sprintD pid ++ "\n"] ∧
    -- the handle and the state in full
    p' = { p with locked := true } ∧ s' = afterTerminate s pid signal message n

/-- A world in which the other process holds the lock until clock 6: it
survives the first signal and is gone after the second. -/
def envDies : Env := fun t => extOf (decide (t < 6)) none

/-- What a run of `terminate` that found nothing alive leaves behind. -/
def ReportedNotRunning (s : Sys) (r : Option (Except Fatal Unit × Process × Sys)) : Prop :=
  ∃ p' s', r = some (.ok (), p', s') ∧ s'.out = s.out ++ ["Not running"] ∧
    s'.kills = s.kills ∧ s'.content = s.content

/-- State after `stop` has killed process 42 in the world `envDies`. -/
def sysStopped : Sys :=
  { content := [], offset := 0, weHold := true, clock := 7,
    kills := [(42, 0), (42, 15), (42, 0), (42, 15)], reads := 3, out := ["Stopped 42\n"] }

/-- The key of a `-D` argument: the text before the first "=", trimmed. -/
def keyOf (arg : GoString) : GoString := TrimSpace (arg.takeWhile (fun c => c ≠ '='))

/-- The value of a `-D` argument: the text after the first "=", trimmed. -/
def valueOf (arg : GoString) : GoString := TrimSpace ((arg.dropWhile (fun c => c ≠ '=')).drop 1)

/-- The property names that may not be given with `-D`. -/
def reservedKeys : List GoString :=
  ["config".toList, "log.output-file".toList, "log.levels-file".toList]

/-- The value the arguments give to a key, a later argument overriding an
earlier one. -/
def lastBinding : List GoString → GoString → Option GoString
  | [], _ => none
  | a :: as, k =>
    match lastBinding as k with
    | some v => some v
    | none => if keyOf a = k then some (valueOf a) else none

/-- The argument makes `parseProperties` panic. -/
def badArg (a : GoString) : Prop := '=' ∉ a ∨ keyOf a ∈ reservedKeys

/-! # Theorems -/

/-! ## strconv: `Atoi` against the value of a numeral -/

theorem wrap64_of_inRange (z : Int) (h1 : -2 ^ 63 ≤ z) (h2 : z < 2 ^ 63) : wrap64 z = z := by
  unfold wrap64
  omega

theorem le_valueFrom (ds : Bytes) (n : Nat) : n ≤ valueFrom n ds := by
  induction ds generalizing n with
  | nil => simp [valueFrom]
  | cons c cs ih =>
    have h := ih (n * 10 + (c - 48))
    simp only [valueFrom, List.foldl_cons] at h ⊢
    omega

theorem valueFrom_cons (n : Nat) (c : Nat) (cs : Bytes) :
    valueFrom n (c :: cs) = valueFrom (n * 10 + (c - 48)) cs := rfl

theorem valueFrom_mono (ds : Bytes) (n m : Nat) (h : n ≤ m) :
    valueFrom n ds ≤ valueFrom m ds := by
  induction ds generalizing n m with
  | nil => simpa [valueFrom] using h
  | cons c cs ih =>
    rw [valueFrom_cons, valueFrom_cons]
    exact ih _ _ (by omega)

theorem valueFrom_lt (ds : Bytes) (n : Nat) (hd : ds.all isDigit = true) :
    valueFrom n ds + 1 ≤ (n + 1) * 10 ^ ds.length := by
  induction ds generalizing n with
  | nil => simp [valueFrom]
  | cons c cs ih =>
    simp only [List.all_cons, Bool.and_eq_true] at hd
    have hc : 48 ≤ c ∧ c ≤ 57 := by simpa [isDigit] using hd.1
    rw [valueFrom_cons]
    have h := ih (n * 10 + (c - 48)) hd.2
    have h3 : n * 10 + (c - 48) + 1 ≤ (n + 1) * 10 := by omega
    have h2 : (n * 10 + (c - 48) + 1) * 10 ^ cs.length ≤ ((n + 1) * 10) * 10 ^ cs.length :=
      Nat.mul_le_mul_right _ h3
    simp only [List.length_cons, pow_succ]
    calc valueFrom (n * 10 + (c - 48)) cs + 1 ≤ _ := h
      _ ≤ _ := h2
      _ = (n + 1) * (10 ^ cs.length * 10) := by ring

theorem AtoiFastLoop_digits (ds : Bytes) (n : Nat) (hd : ds.all isDigit = true)
    (hb : (n + 1) * 10 ^ ds.length ≤ 10 ^ 18) :
    AtoiFastLoop ds (n : Int) = some (valueFrom n ds : Int) := by
  induction ds generalizing n with
  | nil => simp [AtoiFastLoop, valueFrom]
  | cons c cs ih =>
    simp only [List.all_cons, Bool.and_eq_true] at hd
    have hc : 48 ≤ c ∧ c ≤ 57 := by simpa [isDigit] using hd.1
    have hb2 : (n * 10 + (c - 48) + 1) * 10 ^ cs.length ≤ 10 ^ 18 := by
      have h3 : n * 10 + (c - 48) + 1 ≤ (n + 1) * 10 := by omega
      have h2 : (n * 10 + (c - 48) + 1) * 10 ^ cs.length ≤ ((n + 1) * 10) * 10 ^ cs.length :=
        Nat.mul_le_mul_right _ h3
      simp only [List.length_cons, pow_succ] at hb
      calc _ ≤ _ := h2
        _ = (n + 1) * (10 ^ cs.length * 10) := by ring
        _ ≤ _ := hb
    have hpos : 1 ≤ 10 ^ cs.length := Nat.one_le_pow _ _ (by norm_num)
    have hsmall : n * 10 + (c - 48) + 1 ≤ 10 ^ 18 :=
      le_trans (Nat.le_mul_of_pos_right _ hpos) hb2
    have hw : wrap64 ((n : Int) * 10 + ((c - 48 : Nat) : Int)) = ((n * 10 + (c - 48) : Nat) : Int) := by
      rw [wrap64_of_inRange] <;> push_cast <;> omega
    rw [AtoiFastLoop, if_pos hc, hw, ih _ hd.2 hb2, valueFrom_cons]

theorem AtoiFastLoop_nondigit (ds : Bytes) (n : Int) (hd : ds.all isDigit = false) :
    AtoiFastLoop ds n = none := by
  induction ds generalizing n with
  | nil => simp at hd
  | cons c cs ih =>
    by_cases hc : 48 ≤ c ∧ c ≤ 57
    · have : isDigit c = true := by simpa [isDigit] using hc
      simp only [List.all_cons, this, Bool.true_and] at hd
      rw [AtoiFastLoop, if_pos hc, ih _ hd]
    · rw [AtoiFastLoop, if_neg hc]

theorem maxUint64_eq : maxUint64 = 18446744073709551615 := by decide

theorem isDigit_iff (c : Nat) : isDigit c = true ↔ 48 ≤ c ∧ c ≤ 57 := by
  simp [isDigit]

theorem ParseUintLoop_digits_ok (ds : Bytes) (n : Nat) (hd : ds.all isDigit = true)
    (hv : valueFrom n ds ≤ maxUint64) : ParseUintLoop ds n = (valueFrom n ds, none) := by
  induction ds generalizing n with
  | nil => simp [ParseUintLoop, valueFrom]
  | cons c cs ih =>
    simp only [List.all_cons, Bool.and_eq_true] at hd
    have hc : 48 ≤ c ∧ c ≤ 57 := (isDigit_iff c).1 hd.1
    rw [valueFrom_cons] at hv
    have h1 := le_valueFrom cs (n * 10 + (c - 48))
    rw [maxUint64_eq] at hv
    have hcut : ¬ (n ≥ maxUint64 / 10 + 1) := by rw [maxUint64_eq]; omega
    have hmod : (n * 10 + (c - 48)) % 2 ^ 64 = n * 10 + (c - 48) := by
      apply Nat.mod_eq_of_lt; omega
    have hov : ¬ ((n * 10 + (c - 48)) % 2 ^ 64 < n * 10 ∨
        (n * 10 + (c - 48)) % 2 ^ 64 > maxUint64) := by
      rw [hmod, maxUint64_eq]; omega
    rw [ParseUintLoop, if_pos hc, if_neg hcut]
    simp only []
    rw [if_neg hov, hmod, valueFrom_cons]
    exact ih _ hd.2 (by rw [maxUint64_eq]; exact hv)

theorem ParseUintLoop_digits_range (ds : Bytes) (n : Nat) (hd : ds.all isDigit = true)
    (hn : n ≤ maxUint64) (hv : maxUint64 < valueFrom n ds) :
    ParseUintLoop ds n = (maxUint64, some .ErrRange) := by
  induction ds generalizing n with
  | nil => simp [valueFrom] at hv; omega
  | cons c cs ih =>
    simp only [List.all_cons, Bool.and_eq_true] at hd
    have hc : 48 ≤ c ∧ c ≤ 57 := (isDigit_iff c).1 hd.1
    rw [valueFrom_cons] at hv
    rw [ParseUintLoop, if_pos hc]
    by_cases hcut : n ≥ maxUint64 / 10 + 1
    · rw [if_pos hcut]
    · rw [if_neg hcut]
      simp only []
      by_cases hov : (n * 10 + (c - 48)) % 2 ^ 64 < n * 10 ∨
          (n * 10 + (c - 48)) % 2 ^ 64 > maxUint64
      · rw [if_pos hov]
      · rw [if_neg hov]
        rw [maxUint64_eq] at hcut hov
        have hmod : (n * 10 + (c - 48)) % 2 ^ 64 = n * 10 + (c - 48) := by omega
        rw [hmod]
        apply ih _ hd.2
        · rw [maxUint64_eq]; omega
        · exact hv

theorem ParseUintLoop_nondigit (ds : Bytes) (n : Nat) (hd : ds.all isDigit = false) :
    ParseUintLoop ds n = (0, some .ErrSyntax) ∨
      ParseUintLoop ds n = (maxUint64, some .ErrRange) := by
  induction ds generalizing n with
  | nil => simp at hd
  | cons c cs ih =>
    rw [ParseUintLoop]
    by_cases hc : 48 ≤ c ∧ c ≤ 57
    · have hcd : isDigit c = true := (isDigit_iff c).2 hc
      simp only [List.all_cons, hcd, Bool.true_and] at hd
      rw [if_pos hc]
      split
      · exact Or.inr rfl
      · simp only []
        split
        · exact Or.inr rfl
        · exact ih _ hd
    · rw [if_neg hc]; exact Or.inl rfl

theorem ParseUint_ok (ds : Bytes) (hne : ds ≠ []) (hd : ds.all isDigit = true)
    (hv : valueFrom 0 ds ≤ maxUint64) : ParseUint ds = (valueFrom 0 ds, none) := by
  rw [ParseUint, if_neg hne]; exact ParseUintLoop_digits_ok ds 0 hd hv

theorem ParseUint_range (ds : Bytes) (hne : ds ≠ []) (hd : ds.all isDigit = true)
    (hv : maxUint64 < valueFrom 0 ds) : ParseUint ds = (maxUint64, some .ErrRange) := by
  rw [ParseUint, if_neg hne]
  exact ParseUintLoop_digits_range ds 0 hd (by rw [maxUint64_eq]; omega) hv

theorem ParseUint_bad (ds : Bytes) (h : ds = [] ∨ ds.all isDigit = false) :
    ParseUint ds = (0, some .ErrSyntax) ∨ ParseUint ds = (maxUint64, some .ErrRange) := by
  rw [ParseUint]
  by_cases hne : ds = []
  · rw [if_pos hne]; exact Or.inl rfl
  · rw [if_neg hne]
    rcases h with h | h
    · exact absurd h hne
    · exact ParseUintLoop_nondigit ds 0 h

/-- The part of `ParseInt` after the sign has been picked off. -/
theorem ParseInt_cons (c : Nat) (cs : Bytes) :
    ParseInt (c :: cs) =
      (let neg : Bool := c = 45
       let body := if c = 43 ∨ c = 45 then cs else c :: cs
       let r := ParseUint body
       if r.2 ≠ none ∧ r.2 ≠ some .ErrRange then (0, r.2)
       else if neg = false ∧ r.1 ≥ 2 ^ 63 then (((2 ^ 63 : Nat) : Int) - 1, some .ErrRange)
       else if neg = true ∧ r.1 > 2 ^ 63 then (-((2 ^ 63 : Nat) : Int), some .ErrRange)
       else (if neg then wrap64 (-(wrap64 r.1)) else wrap64 r.1, none)) := by
  rfl

/-- What `ParseInt` does with a sign flag and the text after the sign. -/
theorem ParseInt_body (neg : Bool) (body : Bytes) :
    let r := ParseUint body
    let out : Int × Option NumError :=
      if r.2 ≠ none ∧ r.2 ≠ some .ErrRange then (0, r.2)
       else if neg = false ∧ r.1 ≥ 2 ^ 63 then (((2 ^ 63 : Nat) : Int) - 1, some .ErrRange)
       else if neg = true ∧ r.1 > 2 ^ 63 then (-((2 ^ 63 : Nat) : Int), some .ErrRange)
       else (if neg then wrap64 (-(wrap64 r.1)) else wrap64 r.1, none)
    let v : Int := if neg then -(valueFrom 0 body : Int) else (valueFrom 0 body : Int)
    ((body ≠ [] ∧ body.all isDigit = true ∧ -2 ^ 63 ≤ v ∧ v < 2 ^ 63) → out = (v, none)) ∧
    (¬ (body ≠ [] ∧ body.all isDigit = true ∧ -2 ^ 63 ≤ v ∧ v < 2 ^ 63) → out.2 ≠ none) := by
  intro r out v
  have hbad : (r = (0, some .ErrSyntax) ∨ r = (maxUint64, some .ErrRange)) → out.2 ≠ none := by
    rintro (hr | hr)
    · simp [out, hr]
    · cases neg <;> simp [out, hr, maxUint64_eq]
  by_cases hne : body = []
  · exact ⟨fun h => absurd hne h.1, fun _ => hbad (ParseUint_bad body (Or.inl hne))⟩
  by_cases hd : body.all isDigit = true
  swap
  · have hd2 : body.all isDigit = false := by simpa using hd
    exact ⟨fun h => absurd h.2.1 hd, fun _ => hbad (ParseUint_bad body (Or.inr hd2))⟩
  by_cases hv : valueFrom 0 body ≤ maxUint64
  swap
  · have hr : r = (maxUint64, some .ErrRange) := ParseUint_range body hne hd (by omega)
    refine ⟨fun h => ?_, fun _ => hbad (Or.inr hr)⟩
    exfalso
    rw [maxUint64_eq] at hv
    obtain ⟨_, _, h1, h2⟩ := h
    cases neg <;> simp only [v] at h1 h2 <;> simp at h1 h2 <;> omega
  have hr : r = (valueFrom 0 body, none) := ParseUint_ok body hne hd hv
  rw [maxUint64_eq] at hv
  cases neg
  · have hv' : v = (valueFrom 0 body : Int) := by simp [v]
    by_cases hrange : valueFrom 0 body < 9223372036854775808
    · refine ⟨fun _ => ?_, fun h => absurd ⟨hne, hd, by rw [hv']; omega, by rw [hv']; omega⟩ h⟩
      have hw : wrap64 (valueFrom 0 body : Int) = (valueFrom 0 body : Int) :=
        wrap64_of_inRange _ (by omega) (by omega)
      simp [out, hr, hv', hw, hrange]
    · refine ⟨fun h => ?_, fun _ => ?_⟩
      · exfalso; rw [hv'] at h; omega
      · have hn : 9223372036854775808 ≤ valueFrom 0 body := by omega
        simp [out, hr, hn]
  · have hv' : v = -(valueFrom 0 body : Int) := by simp [v]
    by_cases hrange : valueFrom 0 body ≤ 9223372036854775808
    · refine ⟨fun _ => ?_, fun h => absurd ⟨hne, hd, by rw [hv']; omega, by rw [hv']; omega⟩ h⟩
      have hw : wrap64 (-(wrap64 (valueFrom 0 body : Int))) = -(valueFrom 0 body : Int) := by
        unfold wrap64; omega
      simp [out, hr, hv', hw, hrange]
    · refine ⟨fun h => ?_, fun _ => ?_⟩
      · exfalso; rw [hv'] at h; omega
      · have hn : 9223372036854775808 < valueFrom 0 body := by omega
        simp [out, hr, hn]

/-- `ParseInt` on a decimal numeral whose value fits `int64`. -/
theorem ParseInt_ok (s : Bytes) (hn : isNumeral s = true) (h1 : -2 ^ 63 ≤ denotes s)
    (h2 : denotes s < 2 ^ 63) : ParseInt s = (denotes s, none) := by
  cases s with
  | nil => simp [isNumeral] at hn
  | cons c cs =>
    rw [ParseInt_cons]
    by_cases h45 : c = 45
    · subst h45
      have hb := (ParseInt_body true cs).1
      simp only [isNumeral, denotes] at hn h1 h2
      simp at hn h1 h2
      simpa [denotes] using hb ⟨by simpa using hn.1, by simpa using hn.2, by simpa using h1, by simpa using h2⟩
    · by_cases h43 : c = 43
      · subst h43
        have hb := (ParseInt_body false cs).1
        simp only [isNumeral, denotes] at hn h1 h2
        simp at hn h1 h2
        simpa [denotes] using hb ⟨by simpa using hn.1, by simpa using hn.2, by simpa using h1, by simpa using h2⟩
      · have hb := (ParseInt_body false (c :: cs)).1
        simp only [isNumeral, denotes, h45, h43] at hn h1 h2
        simp at hn h1 h2
        simpa [denotes, h45, h43] using
          hb ⟨by simp, by simpa using hn, by simpa using h1, by simpa using h2⟩

theorem ParseInt_err (s : Bytes)
    (h : ¬ (isNumeral s = true ∧ -2 ^ 63 ≤ denotes s ∧ denotes s < 2 ^ 63)) :
    (ParseInt s).2 ≠ none := by
  cases s with
  | nil => simp [ParseInt]
  | cons c cs =>
    rw [ParseInt_cons]
    by_cases h45 : c = 45
    · subst h45
      have hb := (ParseInt_body true cs).2
      simp only [isNumeral, denotes] at h
      simp at h
      simpa using hb (by simpa using h)
    · by_cases h43 : c = 43
      · subst h43
        have hb := (ParseInt_body false cs).2
        simp only [isNumeral, denotes] at h
        simp at h
        simpa using hb (by simpa using h)
      · have hb := (ParseInt_body false (c :: cs)).2
        simp only [isNumeral, denotes, h45, h43] at h
        simp at h
        simpa [h45, h43] using hb (by simpa using h)

/-- The fast path of `Atoi` with a sign flag and the text after the sign. -/
theorem AtoiFast_body (neg : Bool) (body : Bytes) (hlen : body.length ≤ 18) :
    let out : Int × Option NumError :=
      match AtoiFastLoop body 0 with
      | none => (0, some .ErrSyntax)
      | some n => (if neg then wrap64 (-n) else n, none)
    let v : Int := if neg then -(valueFrom 0 body : Int) else (valueFrom 0 body : Int)
    (body.all isDigit = true → out = (v, none) ∧ -2 ^ 63 ≤ v ∧ v < 2 ^ 63) ∧
    (body.all isDigit = false → out.2 ≠ none) := by
  intro out v
  constructor
  · intro hd
    have hp : 10 ^ body.length ≤ 10 ^ 18 := Nat.pow_le_pow_right (by norm_num) hlen
    have hb : (0 + 1) * 10 ^ body.length ≤ 10 ^ 18 := by simpa using hp
    have hl := AtoiFastLoop_digits body 0 hd hb
    have hlt := valueFrom_lt body 0 hd
    have hsmall : valueFrom 0 body < 10 ^ 18 := by omega
    have hsm : valueFrom 0 body < 1000000000000000000 := by simpa using hsmall
    simp only [Nat.cast_zero] at hl
    cases neg
    · simp only [out, v, hl]
      refine ⟨by simp, by simp; omega, by simp; omega⟩
    · have hw : wrap64 (-(valueFrom 0 body : Int)) = -(valueFrom 0 body : Int) :=
        wrap64_of_inRange _ (by omega) (by omega)
      simp only [out, v, hl]
      refine ⟨by simp [hw], by simp; omega, by simp; omega⟩
  · intro hd
    simp [out, AtoiFastLoop_nondigit body 0 hd]

theorem Atoi_cons_fast (c0 : Nat) (rest : Bytes) (hlen : (c0 :: rest).length < 19) :
    Atoi (c0 :: rest) =
      (let signed : Bool := c0 = 45 ∨ c0 = 43
       let body := if signed then rest else c0 :: rest
       if signed = true ∧ body.length < 1 then (0, some .ErrSyntax)
       else
        match AtoiFastLoop body 0 with
        | none => (0, some .ErrSyntax)
        | some n => (if c0 = 45 then wrap64 (-n) else n, none)) := by
  have h : 0 < (c0 :: rest).length ∧ (c0 :: rest).length < 19 := ⟨by simp, hlen⟩
  unfold Atoi
  rw [if_pos h]

theorem Atoi_slow (s : Bytes) (h : ¬ (0 < s.length ∧ s.length < 19)) : Atoi s = ParseInt s := by
  unfold Atoi
  rw [if_neg h]

/-- `Atoi` on a decimal numeral whose value fits `int64`. -/
theorem Atoi_ok (s : Bytes) (hn : isNumeral s = true) (h1 : -2 ^ 63 ≤ denotes s)
    (h2 : denotes s < 2 ^ 63) : Atoi s = (denotes s, none) := by
  by_cases hf : 0 < s.length ∧ s.length < 19
  swap
  · rw [Atoi_slow s hf]; exact ParseInt_ok s hn h1 h2
  cases s with
  | nil => simp [isNumeral] at hn
  | cons c cs =>
    rw [Atoi_cons_fast c cs hf.2]
    have hcs : cs.length ≤ 18 := by simp at hf; omega
    by_cases h45 : c = 45
    · subst h45
      have hb := (AtoiFast_body true cs hcs).1
      simp only [isNumeral] at hn
      simp at hn
      have hne : ¬ cs.length < 1 := by
        have := hn.1
        cases cs with
        | nil => simp at this
        | cons _ _ => simp
      simpa [denotes, hne] using (hb (by simpa using hn.2)).1
    · by_cases h43 : c = 43
      · subst h43
        have hb := (AtoiFast_body false cs hcs).1
        simp only [isNumeral] at hn
        simp at hn
        have hne : ¬ cs.length < 1 := by
          have := hn.1
          cases cs with
          | nil => simp at this
          | cons _ _ => simp
        simpa [denotes, hne] using (hb (by simpa using hn.2)).1
      · have hb := (AtoiFast_body false (c :: cs) (by simp at hf ⊢; omega)).1
        simp only [isNumeral, h45, h43] at hn
        simp at hn
        simpa [denotes, h45, h43] using (hb (by simpa using hn)).1

/-- `Atoi` on anything else fails. -/
theorem Atoi_err (s : Bytes)
    (h : ¬ (isNumeral s = true ∧ -2 ^ 63 ≤ denotes s ∧ denotes s < 2 ^ 63)) :
    (Atoi s).2 ≠ none := by
  by_cases hf : 0 < s.length ∧ s.length < 19
  swap
  · rw [Atoi_slow s hf]; exact ParseInt_err s h
  cases s with
  | nil => simp at hf
  | cons c cs =>
    rw [Atoi_cons_fast c cs hf.2]
    have hcs : cs.length ≤ 18 := by simp at hf; omega
    by_cases h45 : c = 45
    · subst h45
      have hb := AtoiFast_body true cs hcs
      by_cases hd : cs.all isDigit = true
      · have hr := (hb.1 hd).2
        have hemp : cs = [] := by
          by_contra hne
          apply h
          simp only [isNumeral, denotes]
          simpa [hne, hd] using hr
        subst hemp
        simp
      · have hd2 : cs.all isDigit = false := by simpa using hd
        have := hb.2 hd2
        by_cases hl : cs.length < 1
        · simp [hl]
        · simpa [hl] using this
    · by_cases h43 : c = 43
      · subst h43
        have hb := AtoiFast_body false cs hcs
        by_cases hd : cs.all isDigit = true
        · have hr := (hb.1 hd).2
          have hemp : cs = [] := by
            by_contra hne
            apply h
            simp only [isNumeral, denotes]
            simpa [hne, hd] using hr
          subst hemp
          simp
        · have hd2 : cs.all isDigit = false := by simpa using hd
          have := hb.2 hd2
          by_cases hl : cs.length < 1
          · simp [hl]
          · simpa [hl] using this
      · have hb := AtoiFast_body false (c :: cs) (by simp at hf ⊢; omega)
        by_cases hd : (c :: cs).all isDigit = true
        · exfalso
          have hr := (hb.1 hd).2
          apply h
          simp only [isNumeral, denotes, h45, h43]
          simpa [hd] using hr
        · have hd2 : (c :: cs).all isDigit = false := by simpa using hd
          simpa [h45, h43] using hb.2 hd2

/-! ## bufio: `ReadLine` against the first line of the content -/

theorem takeWhile_take_of_lt (p : Nat → Bool) (l : Bytes) (n : Nat)
    (h : (l.takeWhile p).length < n) : (l.take n).takeWhile p = l.takeWhile p := by
  induction l generalizing n with
  | nil => simp
  | cons a as ih =>
    cases n with
    | zero => simp at h
    | succ m =>
      simp only [List.take_succ_cons, List.takeWhile_cons]
      by_cases hp : p a = true
      · simp only [hp, if_true]
        rw [ih m (by simpa [List.takeWhile_cons, hp] using h)]
      · simp [hp]

theorem ReadSlice_newline (content : Bytes)
    (hfit : (content.takeWhile (fun b => b ≠ 10)).length < bufferSize)
    (hnl : (content.takeWhile (fun b => b ≠ 10)).length < content.length) :
    ReadSlice content = (content.takeWhile (fun b => b ≠ 10) ++ [10], none) := by
  unfold ReadSlice
  simp only []
  rw [takeWhile_take_of_lt _ _ _ hfit]
  have : (content.takeWhile (fun b => b ≠ 10)).length < (content.take bufferSize).length := by
    rw [List.length_take]; omega
  rw [if_pos this]

theorem ReadSlice_eof (content : Bytes)
    (hfit : (content.takeWhile (fun b => b ≠ 10)).length < bufferSize)
    (hnl : ¬ (content.takeWhile (fun b => b ≠ 10)).length < content.length) :
    ReadSlice content = (content, some .EOF) ∧ content.takeWhile (fun b => b ≠ 10) = content := by
  have hle := (List.takeWhile_prefix (fun b => decide (b ≠ 10)) (l := content)).length_le
  have hlen : (content.takeWhile (fun b => b ≠ 10)).length = content.length := by omega
  have htw : content.takeWhile (fun b => b ≠ 10) = content := by
    have hpre := List.takeWhile_prefix (fun b => decide (b ≠ 10)) (l := content)
    exact hpre.eq_of_length hlen
  have htake : content.take bufferSize = content := List.take_of_length_le (by omega)
  refine ⟨?_, htw⟩
  unfold ReadSlice
  simp only []
  rw [htake, htw]
  rw [if_neg (by omega), if_neg (by omega)]

theorem ReadLine_nil : ReadLine [] = ([], false, some .EOF) := by decide

theorem penultimate_of_line (init : Bytes) (x : Nat) :
    (init ++ [x] ++ [10]).get? ((init ++ [x] ++ [10]).length - 2) = some x := by
  have h : (init ++ [x] ++ [10]).length - 2 = init.length := by simp
  rw [h, List.append_assoc, List.get?_eq_getElem?, List.getElem?_append_right (le_refl _)]
  simp

theorem take_of_line (init : Bytes) (x : Nat) :
    (init ++ [x] ++ [10]).take ((init ++ [x] ++ [10]).length - 2) = init ∧
    (init ++ [x] ++ [10]).take ((init ++ [x] ++ [10]).length - 1) = init ++ [x] := by
  constructor
  · have h : (init ++ [x] ++ [10]).length - 2 = init.length := by simp
    rw [h, List.append_assoc, List.take_left]
  · have h : (init ++ [x] ++ [10]).length - 1 = (init ++ [x]).length := by simp
    rw [h, List.take_left]

/-- When the first line ends within the buffer, `ReadLine` delivers it. -/
theorem ReadLine_fits (content : Bytes) (hne : content ≠ [])
    (hfit : (content.takeWhile (fun b => b ≠ 10)).length < bufferSize) :
    ReadLine content = (firstLine content, false, none) := by
  by_cases hnl : (content.takeWhile (fun b => b ≠ 10)).length < content.length
  · unfold ReadLine firstLine
    rw [ReadSlice_newline content hfit hnl]
    generalize content.takeWhile (fun b => b ≠ 10) = pre at hnl ⊢
    rcases List.eq_nil_or_concat pre with h | ⟨init, x, h⟩
    · subst h; simp
    · rw [List.concat_eq_append] at h
      subst h
      have h1 := penultimate_of_line init x
      have h2 := take_of_line init x
      have hlen : ¬ (init ++ [x] ++ [10]).length = 0 := by simp
      have hgt : (init ++ [x] ++ [10]).length > 1 := by simp
      have hlast : (init ++ [x] ++ [10]).getLast? = some 10 := List.getLast?_concat _
      have hlast2 : (init ++ [x]).getLast? = some x := List.getLast?_concat _
      simp only [reduceCtorEq, if_false, hlen, hlast, if_true, h1, hgt, true_and, hnl, hlast2,
        Option.some.injEq]
      by_cases hx : x = 13
      · rw [if_pos hx, if_pos hx, h2.1, List.dropLast_concat]
      · rw [if_neg hx, if_neg hx, h2.2]
  · obtain ⟨hs, htw⟩ := ReadSlice_eof content hfit hnl
    unfold ReadLine firstLine
    rw [hs, htw]
    have hlen : ¬ content.length = 0 := by simpa using hne
    have hlast : ¬ content.getLast? = some 10 := by
      intro h
      have hmem : (10 : Nat) ∈ content := List.mem_of_getLast?_eq_some h
      rw [← htw] at hmem
      have := List.mem_takeWhile_imp hmem
      simp at this
    simp [hlen, hlast, hnl]

/-! ## `ReadPid` -/

/-- C3 as amended: for every handle that does not hold the lock and every
content whose first line ends within the first 4096 bytes, `ReadPid` returns
`v` exactly when the file is not empty and its first line is a decimal numeral
that denotes `v`, with `0 < v < 2^63`; it fails when the first line is missing,
is not a numeral, or denotes an integer that is not positive or does not fit
the 64-bit `int`. -/
theorem ReadPid_spec (p : Process) (s : Sys) (hl : p.locked = false)
    (hfit : (s.content.takeWhile (fun b => b ≠ 10)).length < bufferSize) :
    (∀ v, (ReadPid p s).1 = .ok v ↔
        (s.content ≠ [] ∧ isNumeral (firstLine s.content) = true ∧
          denotes (firstLine s.content) = v ∧ 0 < v ∧ v < 2 ^ 63)) ∧
    ((s.content = [] ∨ isNumeral (firstLine s.content) = false ∨
        denotes (firstLine s.content) ≤ 0 ∨ 2 ^ 63 ≤ denotes (firstLine s.content)) →
      ∃ f, (ReadPid p s).1 = .error f) := by
  have key : (s.content ≠ [] ∧ isNumeral (firstLine s.content) = true ∧
        0 < denotes (firstLine s.content) ∧ denotes (firstLine s.content) < 2 ^ 63 ∧
        (ReadPid p s).1 = .ok (denotes (firstLine s.content))) ∨
      ((s.content = [] ∨ isNumeral (firstLine s.content) = false ∨
        denotes (firstLine s.content) ≤ 0 ∨ 2 ^ 63 ≤ denotes (firstLine s.content)) ∧
        ∃ f, (ReadPid p s).1 = .error f) := by
    by_cases hne : s.content = []
    · right
      refine ⟨Or.inl hne, .eof, ?_⟩
      simp [ReadPid, hl, hne, ReadLine_nil]
    have hrl := ReadLine_fits s.content hne hfit
    by_cases hgood : isNumeral (firstLine s.content) = true ∧
        -2 ^ 63 ≤ denotes (firstLine s.content) ∧ denotes (firstLine s.content) < 2 ^ 63
    · have ha := Atoi_ok _ hgood.1 hgood.2.1 hgood.2.2
      by_cases hpos : denotes (firstLine s.content) ≤ 0
      · right
        refine ⟨Or.inr (Or.inr (Or.inl hpos)), .invalidPid (denotes (firstLine s.content)), ?_⟩
        simp [ReadPid, hl, hrl, ha, hpos]
      · left
        refine ⟨hne, hgood.1, by omega, hgood.2.2, ?_⟩
        simp [ReadPid, hl, hrl, ha, hpos]
    · have ha := Atoi_err _ hgood
      right
      constructor
      · by_cases hnum : isNumeral (firstLine s.content) = true
        · have : ¬ (-2 ^ 63 ≤ denotes (firstLine s.content) ∧
              denotes (firstLine s.content) < 2 ^ 63) := fun h => hgood ⟨hnum, h⟩
          right; right
          omega
        · right; left; simpa using hnum
      · refine ⟨.garbage (firstLine s.content), ?_⟩
        cases hA : Atoi (firstLine s.content) with
        | mk v e =>
          rw [hA] at ha
          cases e with
          | none => exact absurd rfl ha
          | some e => simp [ReadPid, hl, hrl, hA]
  constructor
  · intro v
    rcases key with ⟨h1, h2, h3, h4, h5⟩ | ⟨h1, f, h2⟩
    · rw [h5]
      constructor
      · intro h
        have hv : denotes (firstLine s.content) = v := by simpa using h
        exact ⟨h1, h2, hv, hv ▸ h3, hv ▸ h4⟩
      · rintro ⟨_, _, hv, _, _⟩
        rw [hv]
    · rw [h2]
      constructor
      · intro h; cases h
      · rintro ⟨g1, g2, g3, g4, g5⟩
        exfalso
        rcases h1 with h | h | h | h
        · exact g1 h
        · rw [h] at g2; cases g2
        · omega
        · omega
  · intro h
    rcases key with ⟨h1, h2, h3, h4, _⟩ | ⟨_, hf⟩
    · exfalso
      rcases h with h | h | h | h
      · exact h1 h
      · rw [h] at h2; cases h2
      · omega
      · omega
    · exact hf

/-- Instance of the previous theorem on the content "42" and a newline:
`ReadPid` returns 42. -/
theorem ReadPid_spec_witness :
    (ReadPid unlockedHandle (sysOf (ascii "42\n"))).1 = .ok 42 ↔
      ((sysOf (ascii "42\n")).content ≠ [] ∧
        isNumeral (firstLine (sysOf (ascii "42\n")).content) = true ∧
        denotes (firstLine (sysOf (ascii "42\n")).content) = 42 ∧ (0 : Int) < 42 ∧
        (42 : Int) < 2 ^ 63) :=
  (ReadPid_spec unlockedHandle (sysOf (ascii "42\n")) rfl (by decide)).1 42

theorem valueFrom_zeros (k : Nat) (rest : Bytes) :
    valueFrom 0 (List.replicate k 48 ++ rest) = valueFrom 0 rest := by
  induction k with
  | zero => simp
  | succ k ih => rw [List.replicate_succ, List.cons_append, valueFrom_cons]; simpa using ih

theorem all_digits_zeros (k : Nat) (rest : Bytes) :
    (List.replicate k 48 ++ rest).all isDigit = rest.all isDigit := by
  have h : isDigit 48 = true := by decide
  simp [List.all_append, List.all_replicate, h]

theorem takeWhile_zeros (k : Nat) (rest : Bytes) :
    (List.replicate k 48 ++ rest).takeWhile (fun b => b ≠ 10)
      = List.replicate k 48 ++ rest.takeWhile (fun b => b ≠ 10) := by
  induction k with
  | zero => simp
  | succ k ih => rw [List.replicate_succ, List.cons_append, List.takeWhile_cons]; simp [ih]

theorem isNumeral_zeros (k : Nat) (rest : Bytes) (hr : rest.all isDigit = true) :
    isNumeral (List.replicate (k + 1) 48 ++ rest) = true := by
  have h := all_digits_zeros (k + 1) rest
  rw [List.replicate_succ, List.cons_append] at h ⊢
  rw [isNumeral]
  simp only [show ¬ ((48 : Nat) = 43 ∨ (48 : Nat) = 45) by decide, if_false]
  rw [h, hr]

theorem denotes_zeros (k : Nat) (rest : Bytes) :
    denotes (List.replicate (k + 1) 48 ++ rest) = (valueFrom 0 rest : Int) := by
  have h := valueFrom_zeros (k + 1) rest
  rw [List.replicate_succ, List.cons_append] at h ⊢
  rw [denotes]
  simp only [show ¬ ((48 : Nat) = 45) by decide, show ¬ ((48 : Nat) = 43) by decide, if_false]
  rw [h]

theorem firstLine_zeros (k : Nat) :
    firstLine (List.replicate k 48 ++ ascii "123\n") = List.replicate k 48 ++ ascii "123" := by
  have ht : (List.replicate k 48 ++ ascii "123\n").takeWhile (fun b => b ≠ 10)
      = List.replicate k 48 ++ ascii "123" := by
    rw [takeWhile_zeros]
    congr 1
  have hl : (List.replicate k 48 ++ ascii "123" : Bytes).getLast? = some 51 := by
    have : ascii "123" = [49, 50] ++ [51] := by decide
    rw [this, ← List.append_assoc, List.getLast?_concat]
  unfold firstLine
  simp only [ht, hl]
  simp

theorem readPidSpec_zeros (k : Nat) :
    readPidSpec (List.replicate (k + 1) 48 ++ ascii "123\n") = some 123 := by
  have hne : (List.replicate (k + 1) 48 ++ ascii "123\n" : Bytes) ≠ [] := by
    simp [List.replicate_succ]
  have hnum : isNumeral (firstLine (List.replicate (k + 1) 48 ++ ascii "123\n")) = true := by
    rw [firstLine_zeros]; exact isNumeral_zeros k _ (by decide)
  have hval : denotes (firstLine (List.replicate (k + 1) 48 ++ ascii "123\n")) = 123 := by
    rw [firstLine_zeros, denotes_zeros]; decide
  unfold readPidSpec
  rw [if_neg hne, hnum, hval]
  simp

theorem ReadLine_zeros (k : Nat) (hk : k + 2 = bufferSize) :
    ReadLine (List.replicate (k + 1) 48 ++ ascii "123\n")
      = (List.replicate (k + 1) 48 ++ [49], true, none) := by
  have htake : (List.replicate (k + 1) 48 ++ ascii "123\n").take bufferSize
      = List.replicate (k + 1) 48 ++ [49] := by
    rw [List.take_append_eq_append_take, ← hk]
    have h1 : (List.replicate (k + 1) 48 : Bytes).take (k + 2) = List.replicate (k + 1) 48 :=
      List.take_of_length_le (by simp)
    have h2 : k + 2 - (List.replicate (k + 1) 48 : Bytes).length = 1 := by simp
    rw [h1, h2]
    rfl
  have htw : (List.replicate (k + 1) 48 ++ [49] : Bytes).takeWhile (fun b => b ≠ 10)
      = List.replicate (k + 1) 48 ++ [49] := by
    rw [takeWhile_zeros]; simp
  have hlen : (List.replicate (k + 1) 48 ++ [49] : Bytes).length = bufferSize := by
    rw [← hk]; simp
  have hs : ReadSlice (List.replicate (k + 1) 48 ++ ascii "123\n")
      = (List.replicate (k + 1) 48 ++ [49], some .ErrBufferFull) := by
    unfold ReadSlice
    simp only [htake, htw]
    rw [if_neg (lt_irrefl _), if_pos (le_of_eq hlen.symm)]
  unfold ReadLine
  rw [hs]
  have hlast : (List.replicate (k + 1) 48 ++ [49] : Bytes).getLast? = some 49 :=
    List.getLast?_concat _
  simp only [hlast, if_true]
  simp

theorem ReadPid_zeros (k : Nat) (hk : k + 2 = bufferSize) :
    (ReadPid unlockedHandle (sysOf (List.replicate (k + 1) 48 ++ ascii "123\n"))).1 = .ok 1 := by
  have hnum := isNumeral_zeros k [49] (by decide)
  have hval : denotes (List.replicate (k + 1) 48 ++ [49]) = 1 := by
    rw [denotes_zeros]; decide
  have ha := Atoi_ok _ hnum (by rw [hval]; norm_num) (by rw [hval]; norm_num)
  rw [hval] at ha
  simp [ReadPid, unlockedHandle, sysOf, ReadLine_zeros k hk, ha]

/-- C3 fails as stated, on two contents. The first line "9223372036854775808"
is numeric and denotes a positive integer, yet `ReadPid` fails, the value being
outside the range of `int`. The first line of `longLine` denotes 123, yet
`ReadPid` returns 1: the reader delivers the first 4096 bytes only. -/
theorem ReadPid_claim_fails :
    (readPidSpec (ascii "9223372036854775808\n") = some 9223372036854775808 ∧
      (ReadPid unlockedHandle (sysOf (ascii "9223372036854775808\n"))).1
        = .error (.garbage (ascii "9223372036854775808"))) ∧
    (readPidSpec longLine = some 123 ∧
      (ReadPid unlockedHandle (sysOf longLine)).1 = .ok 1) :=
  ⟨by decide, readPidSpec_zeros 4094, ReadPid_zeros 4094 (by decide)⟩

/-! ## `NewProcessInstance`, `Alive`, `WritePid`, `ClearPid` -/

/-- C1 (the code departs from the claim): when the directory and the file can
be created and opened and another process holds the exclusive lock,
`NewProcessInstance` does not return a handle with `locked == false`: the lock
attempt inside `openPidfile` fails with `EWOULDBLOCK` and that error is raised
as a panic. -/
theorem NewProcessInstance_contention_fatal (env : Env) (path : String) (s : Sys)
    (hmk : (env s.clock).mkdirAll = none ∨ (env s.clock).mkdirAll = some .EEXIST)
    (hopen : (env (s.clock + 1)).openFile = none)
    (hfresh : s.weHold = false)
    (hheld : (env (s.clock + 2)).otherHolds = true) :
    (NewProcessInstance env path s).1 = .error (.sys .EWOULDBLOCK) := by
  have hmk' : ((env s.clock).mkdirAll).filter (fun err => err ≠ .EEXIST) = none := by
    rcases hmk with h | h <;> simp [h]
  unfold NewProcessInstance
  rw [hmk']
  simp [openPidfile, tick, hopen, flock, hfresh, hheld]

/-- Instance of the previous theorem: the PID file holds "42" and a running
daemon holds its lock. -/
theorem NewProcessInstance_contention_fatal_witness :
    (NewProcessInstance envBusy "/var/run/launcher.pid" (sysOf (ascii "42\n"))).1
      = .error (.sys .EWOULDBLOCK) :=
  NewProcessInstance_contention_fatal envBusy _ (sysOf (ascii "42\n"))
    (Or.inl rfl) rfl rfl rfl

/-- C2 fails as stated: the handle does not get the lock, the file holds the
valid PID 42, the zero-signal probe fails with `ESRCH` ("no such process"),
and `Alive` panics. -/
theorem Alive_ESRCH_is_fatal :
    (Refresh envStale unlockedHandle (sysOf (ascii "42\n"))).1.locked = false ∧
    (ReadPid unlockedHandle (sysOf (ascii "42\n"))).1 = .ok 42 ∧
    (Alive envStale unlockedHandle (sysOf (ascii "42\n"))).1
      = .error (.probeFailed 42 .ESRCH) := by
  decide

/-- C2 as amended: for every handle that fails to acquire the lock in `Alive`
and whose file holds a valid PID, `Alive` returns true when the zero-signal
probe of that PID succeeds and raises a fatal error when the probe fails, for
whatever reason ("no such process" included). -/
theorem Alive_probe (env : Env) (p : Process) (s : Sys) (pid : Int) (s2 : Sys)
    (hl : (Refresh env p s).1.locked = false)
    (hr : ReadPid (Refresh env p s).1 (Refresh env p s).2 = (.ok pid, s2)) :
    ((Kill env pid 0 s2).1 = none → (Alive env p s).1 = .ok true) ∧
    (∀ e, (Kill env pid 0 s2).1 = some e → (Alive env p s).1 = .error (.probeFailed pid e)) := by
  constructor
  · intro hk
    have hk' : (env s2.clock).kill pid 0 = none := hk
    simp [Alive, hl, hr, Kill, hk']
  · intro e hk
    have hk' : (env s2.clock).kill pid 0 = some e := hk
    simp [Alive, hl, hr, Kill, hk']

/-- Instance of the previous theorem: the file holds "42" and another process
holds the lock. -/
theorem Alive_probe_witness :
    ((Kill envBusy 42 0 { sysOf (ascii "42\n") with clock := 1, offset := 3, reads := 1 }).1 = none →
      (Alive envBusy unlockedHandle (sysOf (ascii "42\n"))).1 = .ok true) ∧
    (∀ e, (Kill envBusy 42 0 { sysOf (ascii "42\n") with clock := 1, offset := 3, reads := 1 }).1 = some e →
      (Alive envBusy unlockedHandle (sysOf (ascii "42\n"))).1 = .error (.probeFailed 42 e)) :=
  Alive_probe envBusy unlockedHandle (sysOf (ascii "42\n")) 42 _ (by decide) (by decide)

/-- C5: on a handle with `locked == false`, for every pid and every state of
the file, `WritePid(pid)` and `ClearPid()` both fail with the not-locked panic
and leave the state, the file content included, unchanged. -/
theorem mutation_requires_lock (env : Env) (p : Process) (pid : Int) (s : Sys)
    (hl : p.locked = false) :
    WritePid env p pid s = (.error .notLockedByUs, s) ∧
    ClearPid p s = (.error .notLockedByUs, s) := by
  simp [WritePid, ClearPid, hl]

/-- Instance of the previous theorem on a file that holds "7". -/
theorem mutation_requires_lock_witness :
    WritePid envFree unlockedHandle 42 (sysOf (ascii "7\n"))
      = (.error .notLockedByUs, sysOf (ascii "7\n")) ∧
    ClearPid unlockedHandle (sysOf (ascii "7\n")) = (.error .notLockedByUs, sysOf (ascii "7\n")) :=
  mutation_requires_lock envFree unlockedHandle 42 (sysOf (ascii "7\n")) rfl

theorem ascii_append (a b : String) : ascii (a ++ b) = ascii a ++ ascii b := by
  simp [ascii, String.toList]

theorem writeAt_empty (bytes : Bytes) : writeAt [] 0 bytes = bytes := by
  simp [writeAt]

/-- C4: a `WritePid(pid)` that succeeds on a handle holding the lock leaves
the file content equal to the base-10 text of `pid` followed by one newline,
whatever the content and the offset were before the call. -/
theorem WritePid_content (env : Env) (p : Process) (pid : Int) (s s' : Sys)
    (hl : p.locked = true)
    (hok : WritePid env p pid s = (.ok none, s')) :
    s'.content = ascii (sprintD pid) ++ [10] := by
  have hnl : ascii "\n" = [10] := by decide
  unfold WritePid ClearPid at hok
  simp only [hl, Bool.true_eq_false, if_false] at hok
  unfold WriteString at hok
  simp only [] at hok
  cases hw : (env s.clock).writeFault with
  | some kerr =>
    obtain ⟨k, err⟩ := kerr
    simp [hw] at hok
  | none =>
    simp only [hw] at hok
    unfold Sync at hok
    simp only [tick] at hok
    cases hs : (env (s.clock + 1)).syncFault with
    | some err => simp [hs] at hok
    | none =>
      simp [hs] at hok
      rw [← hok]
      simp [writeAt_empty, ascii_append, hnl]

/-- Instance of the previous theorem: a longer content and a non-zero offset
before the call. -/
theorem WritePid_content_witness :
    ({ content := ascii "1234\n", offset := 5, weHold := true, clock := 2, kills := [],
       reads := 1, out := [] } : Sys).content = ascii (sprintD 1234) ++ [10] :=
  WritePid_content envFree lockedHandle 1234
    { content := ascii "987654321\n", offset := 7, weHold := true, clock := 0, kills := [],
      reads := 1, out := [] } _ rfl (by decide)

/-! ## `terminate`, `stop`, `kill` -/

theorem Refresh_frame (env : Env) (p : Process) (s : Sys) :
    (Refresh env p s).2.content = s.content ∧ (Refresh env p s).2.kills = s.kills ∧
    (Refresh env p s).2.out = s.out ∧ (Refresh env p s).2.reads = s.reads := by
  unfold Refresh tryLock flock tick
  by_cases h1 : s.weHold = true
  · simp [h1]
  · by_cases h2 : (env s.clock).otherHolds = true
    · simp [h1, h2]
    · simp [h1, h2]

theorem Alive_unlocked (env : Env) (p : Process) (s : Sys)
    (hl : (Refresh env p s).1.locked = false) :
    Alive env p s =
      match ReadPid (Refresh env p s).1 (Refresh env p s).2 with
      | (.error f, s2) => (.error f, (Refresh env p s).1, s2)
      | (.ok pid, s2) =>
        match (env s2.clock).kill pid 0 with
        | some err => (.error (.probeFailed pid err), (Refresh env p s).1,
            { tick s2 with kills := s2.kills ++ [(pid, 0)] })
        | none => (.ok true, (Refresh env p s).1,
            { tick s2 with kills := s2.kills ++ [(pid, 0)] }) := by
  unfold Alive
  simp only [hl, Bool.false_eq_true, if_false, Kill]
  cases ReadPid (Refresh env p s).1 (Refresh env p s).2 with
  | mk r s2 =>
    cases r with
    | error f => rfl
    | ok pid =>
      simp only []
      cases (env s2.clock).kill pid 0 <;> rfl

theorem Alive_locked (env : Env) (p : Process) (s : Sys)
    (hl : (Refresh env p s).1.locked = true) :
    Alive env p s = (.ok false, (Refresh env p s).1, (Refresh env p s).2) := by
  unfold Alive
  simp only [hl, if_true]

theorem Alive_false (env : Env) (p p2 : Process) (s s2 : Sys)
    (h : Alive env p s = (.ok false, p2, s2)) :
    p2.locked = true ∧ s2.kills = s.kills ∧ s2.out = s.out ∧ s2.content = s.content ∧
      s2.reads = s.reads := by
  have hf := Refresh_frame env p s
  cases hl : (Refresh env p s).1.locked with
  | true =>
    rw [Alive_locked env p s hl] at h
    simp only [Prod.mk.injEq, true_and] at h
    obtain ⟨h1, h2⟩ := h
    subst h1 h2
    exact ⟨hl, hf.2.1, hf.2.2.1, hf.1, hf.2.2.2⟩
  | false =>
    exfalso
    rw [Alive_unlocked env p s hl] at h
    revert h
    cases ReadPid (Refresh env p s).1 (Refresh env p s).2 with
    | mk r s1 =>
      cases r with
      | error f => simp
      | ok pid =>
        simp only []
        cases (env s1.clock).kill pid 0 <;> simp

/-- C6: whenever `Alive()` returns false, `terminate` (and so `stop` and
`kill`) returns normally, its only output is "Not running", it makes no `kill`
call at all and leaves the PID-file content as it was. -/
theorem terminate_not_running (env : Env) (fuel : Nat) (p : Process) (signal : Nat)
    (message : String) (s : Sys) (h : (Alive env p s).1 = .ok false) :
    ReportedNotRunning s (terminate env fuel p signal message s) ∧
    ReportedNotRunning s (stop env fuel p s) ∧
    ReportedNotRunning s (kill env fuel p s) := by
  have key : ∀ sig msg, ReportedNotRunning s (terminate env fuel p sig msg s) := by
    intro sig msg
    cases ha : Alive env p s with
    | mk r rest =>
      obtain ⟨p1, s1⟩ := rest
      rw [ha] at h
      simp only at h
      subst h
      have hf := Alive_false env p p1 s s1 ha
      refine ⟨p1, Printf "Not running" s1, ?_, ?_, ?_, ?_⟩
      · simp [terminate, ha]
      · simp [Printf, hf.2.2.1]
      · simp [Printf, hf.2.1]
      · simp [Printf, hf.2.2.2.1]
  exact ⟨key _ _, key _ _, key _ _⟩

/-- Instance of the previous theorem: nobody holds the lock. -/
theorem terminate_not_running_witness :
    ReportedNotRunning (sysOf (ascii "42\n"))
      (terminate envFree 3 unlockedHandle SIGTERM "Stopped" (sysOf (ascii "42\n"))) ∧
    ReportedNotRunning (sysOf (ascii "42\n")) (stop envFree 3 unlockedHandle (sysOf (ascii "42\n"))) ∧
    ReportedNotRunning (sysOf (ascii "42\n")) (kill envFree 3 unlockedHandle (sysOf (ascii "42\n"))) :=
  terminate_not_running envFree 3 unlockedHandle SIGTERM "Stopped" (sysOf (ascii "42\n"))
    (by decide)

theorem ReadPid_unlocked (p : Process) (s : Sys) (hl : p.locked = false) :
    ReadPid p s = ((ReadPid unlockedHandle (sysOf s.content)).1,
      { s with offset := min s.content.length bufferSize, reads := s.reads + 1 }) := by
  unfold ReadPid
  simp only [hl, unlockedHandle, sysOf, Bool.false_eq_true, if_false]
  split
  · rfl
  · split
    · rfl
    · split <;> rfl

theorem Refresh_unheld (env : Env) (p : Process) (s : Sys) (hw : s.weHold = false) :
    Refresh env p s =
      if (env s.clock).otherHolds = true then ({ p with locked := false }, tick s)
      else ({ p with locked := true }, { tick s with weHold := true }) := by
  unfold Refresh tryLock flock
  by_cases h : (env s.clock).otherHolds = true <;> simp [hw, h]

/-- One round of the loop, from a state in which this process does not hold
the lock and the file holds the PID `pid`. -/
theorem terminateLoop_round (env : Env) (signal : Nat) (pid : Int) (fuel : Nat) (p : Process)
    (s : Sys) (hw : s.weHold = false)
    (hpid : (ReadPid unlockedHandle (sysOf s.content)).1 = .ok pid) :
    terminateLoop env signal pid (fuel + 1) p s =
      match ((env s.clock).kill pid signal).filter (fun e => e ≠ .ESRCH) with
      | some e => some (.error (.signalFailed pid e), p,
          { tick s with kills := s.kills ++ [(pid, signal)] })
      | none =>
        if (env (s.clock + 1)).otherHolds = true then
          match (env (s.clock + 2)).kill pid 0 with
          | some e => some (.error (.probeFailed pid e), { p with locked := false },
              { s with clock := s.clock + 3, kills := s.kills ++ [(pid, signal), (pid, 0)],
                       reads := s.reads + 1, offset := min s.content.length bufferSize })
          | none => terminateLoop env signal pid fuel { p with locked := false }
              { s with clock := s.clock + 3, kills := s.kills ++ [(pid, signal), (pid, 0)],
                       reads := s.reads + 1, offset := min s.content.length bufferSize }
        else some (.ok (), { p with locked := true }, afterLoop s pid signal 0) := by
  rw [terminateLoop]
  simp only [Kill]
  cases ((env s.clock).kill pid signal).filter (fun e => e ≠ .ESRCH) with
  | some e => rfl
  | none =>
    simp only []
    by_cases hh : (env (s.clock + 1)).otherHolds = true
    · have hr : Refresh env p { tick s with kills := s.kills ++ [(pid, signal)] }
          = ({ p with locked := false }, tick { tick s with kills := s.kills ++ [(pid, signal)] }) := by
        rw [Refresh_unheld _ _ _ (by simpa [tick] using hw)]
        simp [tick, hh]
      have hl : (Refresh env p { tick s with kills := s.kills ++ [(pid, signal)] }).1.locked
          = false := by rw [hr]
      rw [Alive_unlocked _ _ _ hl, hr]
      simp only []
      rw [ReadPid_unlocked _ _ rfl]
      simp only [tick, hpid, hh, if_true]
      cases (env (s.clock + 1 + 1)).kill pid 0 with
      | some e => simp
      | none => simp
    · have hr : Refresh env p { tick s with kills := s.kills ++ [(pid, signal)] }
          = ({ p with locked := true },
             { tick { tick s with kills := s.kills ++ [(pid, signal)] } with weHold := true }) := by
        rw [Refresh_unheld _ _ _ (by simpa [tick] using hw)]
        simp [tick, hh]
      have hl : (Refresh env p { tick s with kills := s.kills ++ [(pid, signal)] }).1.locked
          = true := by rw [hr]
      rw [Alive_locked _ _ _ hl, hr]
      simp [ClearPid, tick, hh, afterLoop, roundKills]

theorem sendOk_iff (r : Option Errno) :
    sendOk r = true ↔ r.filter (fun e => e ≠ .ESRCH) = none := by
  cases r with
  | none => simp [sendOk]
  | some e => cases e <;> simp [sendOk, Option.filter]

theorem afterLoop_succ (s : Sys) (pid : Int) (signal n : Nat) :
    afterLoop { s with clock := s.clock + 3, kills := s.kills ++ [(pid, signal), (pid, 0)],
                       reads := s.reads + 1, offset := min s.content.length bufferSize }
      pid signal n = afterLoop s pid signal (n + 1) := by
  simp only [afterLoop, roundKills, List.append_assoc, List.cons_append, List.nil_append,
    Sys.mk.injEq, true_and, and_true]
  constructor <;> omega

/-- The loop of `terminate` returns exactly when the world lets it end after
some number of rounds within the fuel, and then in the state `afterLoop`. -/
theorem terminateLoop_exact (env : Env) (signal : Nat) (pid : Int) (fuel : Nat) :
    ∀ (p : Process) (s : Sys) (p' : Process) (s' : Sys), s.weHold = false →
    (ReadPid unlockedHandle (sysOf s.content)).1 = .ok pid →
    (terminateLoop env signal pid fuel p s = some (.ok (), p', s') ↔
      ∃ n, n < fuel ∧ diesAfter env pid signal n s.clock = true ∧
        p' = { p with locked := true } ∧ s' = afterLoop s pid signal n) := by
  induction fuel with
  | zero => intro p s p' s' _ _; simp [terminateLoop]
  | succ fuel ih =>
    intro p s p' s' hw hpid
    rw [terminateLoop_round env signal pid fuel p s hw hpid]
    cases hf : ((env s.clock).kill pid signal).filter (fun e => e ≠ .ESRCH) with
    | some e =>
      have hs : sendOk ((env s.clock).kill pid signal) = false := by
        cases h : sendOk ((env s.clock).kill pid signal) with
        | false => rfl
        | true => rw [(sendOk_iff _).1 h] at hf; cases hf
      constructor
      · intro h; simp at h
      · rintro ⟨n, _, hd, _⟩
        cases n <;> simp [diesAfter, hs] at hd
    | none =>
      have hs : sendOk ((env s.clock).kill pid signal) = true := (sendOk_iff _).2 hf
      simp only []
      by_cases hh : (env (s.clock + 1)).otherHolds = true
      · rw [if_pos hh]
        cases hk : (env (s.clock + 2)).kill pid 0 with
        | some e =>
          constructor
          · intro h; simp at h
          · rintro ⟨n, _, hd, _⟩
            cases n <;> simp [diesAfter, hh, hk] at hd
        | none =>
          simp only []
          have hi := ih { p with locked := false }
            { s with clock := s.clock + 3, kills := s.kills ++ [(pid, signal), (pid, 0)],
                     reads := s.reads + 1, offset := min s.content.length bufferSize }
            p' s' hw hpid
          rw [hi]
          constructor
          · rintro ⟨n, hn, hd, hp, hs'⟩
            refine ⟨n + 1, by omega, ?_, hp, ?_⟩
            · simp only [diesAfter, hs, hh, hk, decide_True, Bool.and_self, Bool.true_and]
              exact hd
            · rw [hs', afterLoop_succ]
          · rintro ⟨n, hn, hd, hp, hs'⟩
            cases n with
            | zero => simp [diesAfter, hh] at hd
            | succ n =>
              refine ⟨n, by omega, ?_, hp, ?_⟩
              · simpa [diesAfter, hs, hh, hk] using hd
              · rw [hs', afterLoop_succ]
      · rw [if_neg hh]
        have hh' : (env (s.clock + 1)).otherHolds = false := by simpa using hh
        constructor
        · intro h
          simp only [Option.some.injEq, Prod.mk.injEq, true_and] at h
          exact ⟨0, by omega, by simp [diesAfter, hs, hh'], h.1.symm, h.2.symm⟩
        · rintro ⟨n, _, hd, hp, hs'⟩
          cases n with
          | zero => rw [hp, hs']
          | succ n => simp [diesAfter, hh'] at hd

theorem roundKills_mem (pid : Int) (signal n : Nat) :
    (∀ e ∈ roundKills pid signal n, e = (pid, signal) ∨ e = (pid, 0)) ∧
    (pid, signal) ∈ roundKills pid signal n ∧
    (roundKills pid signal n).getLast? = some (pid, signal) := by
  induction n with
  | zero => simp [roundKills]
  | succ n ih =>
    obtain ⟨h1, h2, h3⟩ := ih
    refine ⟨?_, ?_, ?_⟩
    · intro e he
      simp only [roundKills, List.mem_cons] at he
      rcases he with he | he | he
      · exact Or.inl he
      · exact Or.inr he
      · exact h1 e he
    · simp [roundKills]
    · have hne : roundKills pid signal n ≠ [] := List.ne_nil_of_mem h2
      cases hr : roundKills pid signal n with
      | nil => exact absurd hr hne
      | cons a as =>
        rw [hr] at h3
        simp only [roundKills, hr]
        simpa [List.getLast?_cons_cons] using h3

theorem diesAfter_last (env : Env) (pid : Int) (signal : Nat) (n : Nat) :
    ∀ c, diesAfter env pid signal n c = true → (env (c + 3 * n + 1)).otherHolds = false := by
  induction n with
  | zero =>
    intro c h
    simp only [diesAfter, Bool.and_eq_true, Bool.not_eq_true'] at h
    simpa using h.2
  | succ n ih =>
    intro c h
    simp only [diesAfter, Bool.and_eq_true] at h
    have := ih (c + 3) h.2
    have e : c + 3 + 3 * n + 1 = c + 3 * (n + 1) + 1 := by omega
    rw [← e]; exact this

/-- What `Alive()` returning true says about the state and the world. -/
theorem Alive_true_exact (env : Env) (p : Process) (s : Sys)
    (h : (Alive env p s).1 = .ok true) :
    ∃ pid, (ReadPid unlockedHandle (sysOf s.content)).1 = .ok pid ∧ s.weHold = false ∧
      Alive env p s = (.ok true, { p with locked := false },
        { s with clock := s.clock + 2, kills := s.kills ++ [(pid, 0)], reads := s.reads + 1,
                 offset := min s.content.length bufferSize }) := by
  cases hw : s.weHold with
  | true =>
    exfalso
    have hr : (Refresh env p s).1.locked = true := by simp [Refresh, tryLock, flock, hw]
    rw [Alive_locked env p s hr] at h
    simp at h
  | false =>
    have hr := Refresh_unheld env p s hw
    by_cases hh : (env s.clock).otherHolds = true
    · rw [if_pos hh] at hr
      have hl : (Refresh env p s).1.locked = false := by rw [hr]
      have hA := Alive_unlocked env p s hl
      rw [hr] at hA
      simp only [] at hA
      rw [ReadPid_unlocked _ (tick s) rfl] at hA
      have hc : (tick s).content = s.content := rfl
      rw [hc] at hA
      cases hp : (ReadPid unlockedHandle (sysOf s.content)).1 with
      | error f => rw [hp] at hA; rw [hA] at h; simp at h
      | ok pid =>
        rw [hp] at hA
        simp only [tick] at hA
        cases hk : (env (s.clock + 1)).kill pid 0 with
        | some e => rw [hk] at hA; rw [hA] at h; simp at h
        | none =>
          rw [hk] at hA
          refine ⟨pid, rfl, rfl, ?_⟩
          rw [hA]
          simp [hw]
    · exfalso
      rw [if_neg hh] at hr
      have hl : (Refresh env p s).1.locked = true := by rw [hr]
      rw [Alive_locked env p s hl] at h
      simp at h

theorem Alive_lastCheck (env : Env) (p : Process) (s : Sys) (pid : Int) (signal n : Nat)
    (hd : diesAfter env pid signal n (s.clock + 2) = true) :
    Alive env p (lastCheck s pid signal n)
      = (.ok false, { p with locked := true }, { lastCheck s pid signal n with
          weHold := true, clock := (lastCheck s pid signal n).clock + 1 }) := by
  have hfree := diesAfter_last env pid signal n (s.clock + 2) hd
  have e : s.clock + 2 + 3 * n + 1 = s.clock + 3 * n + 3 := by omega
  rw [e] at hfree
  have hr := Refresh_unheld env p (lastCheck s pid signal n) rfl
  have hc : (lastCheck s pid signal n).clock = s.clock + 3 * n + 3 := rfl
  rw [hc, hfree] at hr
  simp only [Bool.false_eq_true, if_false] at hr
  have hl : (Refresh env p (lastCheck s pid signal n)).1.locked = true := by rw [hr]
  rw [Alive_locked _ _ _ hl, hr]
  rfl

/-- The runs of `terminate` that found the process alive and return normally. -/
theorem terminate_characterised (env : Env) (fuel : Nat) (p : Process) (s : Sys)
    (halive : (Alive env p s).1 = .ok true) (signal : Nat) (message : String)
    (p' : Process) (s' : Sys) :
    terminate env fuel p signal message s = some (.ok (), p', s') ↔
      KilledAndCleared env fuel signal message s p p' s' := by
  obtain ⟨pid, hpid, hw, ha⟩ := Alive_true_exact env p s halive
  have hrp : ReadPid { p with locked := false }
      { s with clock := s.clock + 2, kills := s.kills ++ [(pid, 0)], reads := s.reads + 1,
               offset := min s.content.length bufferSize }
      = (.ok pid, { s with clock := s.clock + 2, kills := s.kills ++ [(pid, 0)],
                           reads := s.reads + 2,
                           offset := min s.content.length bufferSize }) := by
    rw [ReadPid_unlocked _ _ rfl]
    simp only [hpid]
  have hex := terminateLoop_exact env signal pid fuel { p with locked := false }
    { s with clock := s.clock + 2, kills := s.kills ++ [(pid, 0)], reads := s.reads + 2,
             offset := min s.content.length bufferSize }
  have hstate : ∀ n, Printf (message ++ " " ++ sprintD pid ++ "\n")
      (afterLoop { s with clock := s.clock + 2, kills := s.kills ++ [(pid, 0)],
                          reads := s.reads + 2, offset := min s.content.length bufferSize }
        pid signal n) = afterTerminate s pid signal message n := by
    intro n
    simp only [Printf, afterLoop, afterTerminate, List.append_assoc, List.singleton_append,
      Sys.mk.injEq, true_and, and_true]
    constructor <;> omega
  have hterm : terminate env fuel p signal message s =
      match terminateLoop env signal pid fuel { p with locked := false }
        { s with clock := s.clock + 2, kills := s.kills ++ [(pid, 0)], reads := s.reads + 2,
                 offset := min s.content.length bufferSize } with
      | none => none
      | some (.error f, p3, s3) => some (.error f, p3, s3)
      | some (.ok (), p3, s3) =>
        some (.ok (), p3, Printf (message ++ " " ++ sprintD pid ++ "\n") s3) := by
    unfold terminate
    rw [ha]
    simp only []
    rw [hrp]
  rw [hterm]
  constructor
  · intro h
    cases hl : terminateLoop env signal pid fuel { p with locked := false }
        { s with clock := s.clock + 2, kills := s.kills ++ [(pid, 0)], reads := s.reads + 2,
                 offset := min s.content.length bufferSize } with
    | none => rw [hl] at h; simp at h
    | some res =>
      obtain ⟨r3, p3, s3⟩ := res
      rw [hl] at h
      cases r3 with
      | error f => simp at h
      | ok u =>
        simp only [Option.some.injEq, Prod.mk.injEq, true_and] at h
        obtain ⟨h1, h2⟩ := h
        obtain ⟨n, hn, hd, hp3, hs3⟩ := (hex p3 s3 hw hpid).1 hl
        have hs' : s' = afterTerminate s pid signal message n := by
          rw [← h2, hs3, hstate]
        have hp' : p' = { p with locked := true } := by rw [← h1, hp3]
        obtain ⟨k1, k2, k3⟩ := roundKills_mem pid signal n
        refine ⟨pid, n, ?_, hn, hd, ?_, k1, k2, k3, ?_, ?_, ?_, ?_, ?_, hp', hs'⟩
        · rw [ha]; simp only []; rw [hrp]
        · rw [hs']; rfl
        · rw [hp']; exact Alive_lastCheck env p s pid signal n hd
        · rw [hs']; rfl
        · rw [hp']
        · rw [hs']; rfl
        · rw [hs']; rfl
  · rintro ⟨pid', n, hr, hn, hd, _, _, _, _, _, _, _, _, _, hp', hs'⟩
    have hpp : pid' = pid := by
      rw [ha] at hr
      simp only [] at hr
      rw [hrp] at hr
      simpa using hr.symm
    subst hpp
    have hl := (hex { p with locked := true }
      (afterLoop { s with clock := s.clock + 2, kills := s.kills ++ [(pid', 0)],
                          reads := s.reads + 2, offset := min s.content.length bufferSize }
        pid' signal n) hw hpid).2 ⟨n, hn, hd, rfl, rfl⟩
    rw [hl]
    simp only []
    rw [hstate, hp', hs']

/-- C7: the runs of `terminate(signal, message)` that found the process alive
and return normally are exactly the runs `KilledAndCleared` describes, with
`pid` the PID read from the file before the loop: every `kill` call made is
the designated signal to `pid` or a zero-signal probe of `pid`, the designated
signal is sent at least once and is the last call made; in every round but the
last the lock was still held and the probe succeeded, and the last `Alive()`
check, made right after the last signal, found the lock free, took it and
returned false; the PID file is empty on return and the report is
"{message} {pid}". The signal is SIGTERM and the message "Stopped" for `stop`,
SIGKILL and "Killed" for `kill`. -/
theorem terminate_returns (env : Env) (fuel : Nat) (p : Process) (s : Sys)
    (halive : (Alive env p s).1 = .ok true) (p' : Process) (s' : Sys) :
    (∀ signal message, terminate env fuel p signal message s = some (.ok (), p', s') ↔
      KilledAndCleared env fuel signal message s p p' s') ∧
    (stop env fuel p s = some (.ok (), p', s') ↔
      KilledAndCleared env fuel SIGTERM "Stopped" s p p' s') ∧
    (kill env fuel p s = some (.ok (), p', s') ↔
      KilledAndCleared env fuel SIGKILL "Killed" s p p' s') :=
  ⟨fun signal message => terminate_characterised env fuel p s halive signal message p' s',
    terminate_characterised env fuel p s halive SIGTERM "Stopped" p' s',
    terminate_characterised env fuel p s halive SIGKILL "Killed" p' s'⟩

/-- Instance of the previous theorem: `stop` on process 42, which survives the
first SIGTERM and has released the lock after the second. -/
theorem terminate_returns_witness :
    KilledAndCleared envDies 5 SIGTERM "Stopped" (sysOf (ascii "42\n")) unlockedHandle
      lockedHandle sysStopped :=
  ((terminate_returns envDies 5 unlockedHandle (sysOf (ascii "42\n")) (by decide)
    lockedHandle sysStopped).2.1).1 (by decide)

/-! ## Opening an unlocked PID file -/

/-- C8: when the directory and the file can be created and opened and no
process holds the lock, `NewProcessInstance(P)` returns a handle on which
`Alive()` returns false, without any read of the file content and without any
`kill` call, whatever the file contains. -/
theorem open_then_Alive (env : Env) (path : String) (s : Sys)
    (hmk : (env s.clock).mkdirAll = none ∨ (env s.clock).mkdirAll = some .EEXIST)
    (hopen : (env (s.clock + 1)).openFile = none)
    (hfresh : s.weHold = false)
    (hfree : (env (s.clock + 2)).otherHolds = false) :
    ∃ p, (NewProcessInstance env path s).1 = .ok p ∧
      (Alive env p (NewProcessInstance env path s).2).1 = .ok false ∧
      (Alive env p (NewProcessInstance env path s).2).2.2.reads = s.reads ∧
      (Alive env p (NewProcessInstance env path s).2).2.2.kills = s.kills ∧
      (Alive env p (NewProcessInstance env path s).2).2.2.content = s.content := by
  have hmk' : ((env s.clock).mkdirAll).filter (fun err => err ≠ .EEXIST) = none := by
    rcases hmk with h | h <;> simp [h]
  have hnpi : NewProcessInstance env path s =
      (.ok { path := path, locked := true },
        { s with offset := 0, weHold := true, clock := s.clock + 4 }) := by
    unfold NewProcessInstance
    rw [hmk']
    simp [openPidfile, tick, hopen, flock, hfresh, hfree, Refresh, tryLock]
  refine ⟨{ path := path, locked := true }, ?_, ?_⟩
  · rw [hnpi]
  · rw [hnpi]
    simp [Alive, Refresh, tryLock, flock, tick]

/-- Instance of the previous theorem on a file whose content is garbage. -/
theorem open_then_Alive_witness :
    ∃ p, (NewProcessInstance envFree "/run/launcher.pid" (sysOf (ascii "garbage"))).1 = .ok p ∧
      (Alive envFree p
        (NewProcessInstance envFree "/run/launcher.pid" (sysOf (ascii "garbage"))).2).1
          = .ok false ∧
      (Alive envFree p
        (NewProcessInstance envFree "/run/launcher.pid" (sysOf (ascii "garbage"))).2).2.2.reads
          = (sysOf (ascii "garbage")).reads ∧
      (Alive envFree p
        (NewProcessInstance envFree "/run/launcher.pid" (sysOf (ascii "garbage"))).2).2.2.kills
          = (sysOf (ascii "garbage")).kills ∧
      (Alive envFree p
        (NewProcessInstance envFree "/run/launcher.pid" (sysOf (ascii "garbage"))).2).2.2.content
          = (sysOf (ascii "garbage")).content :=
  open_then_Alive envFree "/run/launcher.pid" (sysOf (ascii "garbage")) (Or.inl rfl) rfl rfl rfl

/-! ## `transformArgs` -/

/-- C9 (the code departs from the claim): on the argument list of the claim,
`transformArgs` splits "-Da=b" but leaves "-Jx" whole. The loop runs as many
times as the list was long before the loop, so after one split the last
argument is never looked at. -/
theorem transformArgs_skips_last :
    transformArgs (["launcher2", "start", "-Da=b", "-Jx"].map String.toList)
      = ["launcher2", "start", "-D", "a=b", "-Jx"].map String.toList ∧
    splitFlagArgs (["launcher2", "start", "-Da=b", "-Jx"].map String.toList)
      = ["launcher2", "start", "-D", "a=b", "-J", "x"].map String.toList ∧
    transformArgs (["launcher2", "start", "-Da=b", "-Jx"].map String.toList)
      ≠ splitFlagArgs (["launcher2", "start", "-Da=b", "-Jx"].map String.toList) := by
  decide

/-! ## `parseProperties` -/

theorem ContainsEq_iff (a : GoString) : ContainsEq a = true ↔ '=' ∈ a := by
  induction a with
  | nil => simp [ContainsEq]
  | cons c cs ih =>
    simp only [ContainsEq, Bool.or_eq_true, decide_eq_true_eq, ih, List.mem_cons]
    constructor
    · rintro (h | h)
      · exact Or.inl h.symm
      · exact Or.inr h
    · rintro (h | h)
      · exact Or.inl h.symm
      · exact Or.inr h

theorem SplitN2_spec (a : GoString) (h : ContainsEq a = true) :
    (SplitN2 a).1 = a.takeWhile (fun c => c ≠ '=') ∧
    (SplitN2 a).2 = (a.dropWhile (fun c => c ≠ '=')).drop 1 := by
  induction a with
  | nil => simp [ContainsEq] at h
  | cons c cs ih =>
    by_cases hc : c = '='
    · subst hc
      simp [SplitN2]
    · have h' : ContainsEq cs = true := by
        simpa [ContainsEq, hc] using h
      obtain ⟨i1, i2⟩ := ih h'
      simp [SplitN2, hc, i1, i2]

theorem find?_filter_ne (m : GoMap) (k k' : GoString) (h : ¬ k' = k) :
    (m.filter (fun kv => kv.1 ≠ k)).find? (fun kv => kv.1 = k')
      = m.find? (fun kv => kv.1 = k') := by
  induction m with
  | nil => rfl
  | cons kv rest ih =>
    by_cases hk : kv.1 = k
    · have hk' : ¬ kv.1 = k' := by rw [hk]; exact fun e => h e.symm
      have hf : (decide (kv.1 ≠ k)) = false := by simp [hk]
      have hg : (decide (kv.1 = k')) = false := by simp [hk']
      rw [List.filter_cons_of_neg (by simp [hk]), List.find?_cons_of_neg _ (by simp [hk']), ih]
    · rw [List.filter_cons_of_pos (by simp [hk])]
      by_cases hk' : kv.1 = k'
      · rw [List.find?_cons_of_pos _ (by simp [hk']), List.find?_cons_of_pos _ (by simp [hk'])]
      · rw [List.find?_cons_of_neg _ (by simp [hk']), List.find?_cons_of_neg _ (by simp [hk']),
          ih]

theorem GoMap.get_set (m : GoMap) (k v k' : GoString) :
    (m.set k v).get k' = if k' = k then some v else m.get k' := by
  unfold GoMap.set GoMap.get
  by_cases h : k' = k
  · subst h
    simp
  · have h2 : ¬ k = k' := fun e => h e.symm
    rw [List.find?_cons_of_neg _ (by simp [h2]), find?_filter_ne m k k' h, if_neg h]

theorem parsePropertiesLoop_step (arg : GoString) (args : List GoString) (acc : GoMap) :
    (badArg arg → ∃ f, parsePropertiesLoop (arg :: args) acc = .error f) ∧
    (¬ badArg arg → parsePropertiesLoop (arg :: args) acc
        = parsePropertiesLoop args (acc.set (keyOf arg) (valueOf arg))) := by
  by_cases hc : ContainsEq arg = true
  · have hs := SplitN2_spec arg hc
    have hmem := (ContainsEq_iff arg).1 hc
    have hk : TrimSpace (SplitN2 arg).1 = keyOf arg := by rw [hs.1]; rfl
    have hv : TrimSpace (SplitN2 arg).2 = valueOf arg := by rw [hs.2]; rfl
    have hcf : ¬ (ContainsEq arg = false) := by simp [hc]
    rw [parsePropertiesLoop, if_neg hcf]
    simp only [hk, hv]
    constructor
    · rintro (h | h)
      · exact absurd hmem h
      · simp only [reservedKeys, List.mem_cons, List.mem_singleton, List.not_mem_nil,
          or_false] at h
        rcases h with h | h | h
        · exact ⟨.config, by rw [if_pos h]⟩
        · by_cases h1 : keyOf arg = "config".toList
          · exact ⟨.config, by rw [if_pos h1]⟩
          · exact ⟨.serverLog, by rw [if_neg h1, if_pos h]⟩
        · by_cases h1 : keyOf arg = "config".toList
          · exact ⟨.config, by rw [if_pos h1]⟩
          · by_cases h2 : keyOf arg = "log.output-file".toList
            · exact ⟨.serverLog, by rw [if_neg h1, if_pos h2]⟩
            · exact ⟨.logLevels, by rw [if_neg h1, if_neg h2, if_pos h]⟩
    · intro h
      have h' : ¬ keyOf arg ∈ reservedKeys := fun hm => h (Or.inr hm)
      simp only [reservedKeys, List.mem_cons, List.mem_singleton, List.not_mem_nil,
        or_false, not_or] at h'
      rw [if_neg h'.1, if_neg h'.2.1, if_neg h'.2.2]
  · have hcf : ContainsEq arg = false := by simpa using hc
    have hmem : '=' ∉ arg := fun hm => hc ((ContainsEq_iff arg).2 hm)
    constructor
    · intro _
      exact ⟨.malformed arg, by rw [parsePropertiesLoop, if_pos hcf]⟩
    · intro h
      exact absurd (Or.inl hmem) h

theorem parsePropertiesLoop_spec (args : List GoString) :
    ∀ acc : GoMap,
    ((∃ f, parsePropertiesLoop args acc = .error f) ↔ ∃ a ∈ args, badArg a) ∧
    (∀ m, parsePropertiesLoop args acc = .ok m →
      ∀ k, m.get k = match lastBinding args k with
        | some v => some v
        | none => acc.get k) := by
  induction args with
  | nil =>
    intro acc
    simp [parsePropertiesLoop, lastBinding]
  | cons arg args ih =>
    intro acc
    have hstep := parsePropertiesLoop_step arg args acc
    by_cases hb : badArg arg
    · obtain ⟨f, hf⟩ := hstep.1 hb
      constructor
      · exact ⟨fun _ => ⟨arg, List.mem_cons_self _ _, hb⟩, fun _ => ⟨f, hf⟩⟩
      · intro m hm
        rw [hf] at hm
        cases hm
    · rw [hstep.2 hb]
      obtain ⟨i1, i2⟩ := ih (acc.set (keyOf arg) (valueOf arg))
      constructor
      · rw [i1]
        constructor
        · rintro ⟨a, ha, hba⟩
          exact ⟨a, List.mem_cons_of_mem _ ha, hba⟩
        · rintro ⟨a, ha, hba⟩
          rcases List.mem_cons.1 ha with h | h
          · rw [h] at hba; exact absurd hba hb
          · exact ⟨a, h, hba⟩
      · intro m hm k
        rw [i2 m hm k, lastBinding]
        cases lastBinding args k with
        | some v => rfl
        | none =>
          simp only [GoMap.get_set]
          by_cases hk : keyOf arg = k
          · rw [if_pos hk, if_pos hk.symm]
          · have hk' : ¬ k = keyOf arg := fun e => hk e.symm
            rw [if_neg hk, if_neg hk']

theorem lastBinding_eq_none (args : List GoString) (k : GoString)
    (h : ∀ a ∈ args, keyOf a ≠ k) : lastBinding args k = none := by
  induction args with
  | nil => rfl
  | cons a as ih =>
    rw [lastBinding, ih (fun b hb => h b (List.mem_cons_of_mem _ hb))]
    simp [h a (List.mem_cons_self _ _)]

/-- C10: `parseProperties` fails exactly when some argument contains no "="
or has "config", "log.output-file" or "log.levels-file" as its trimmed key;
when it returns a map, none of those three names is a key of it and every key
is mapped to the trimmed remainder of the last argument that has this trimmed
key. -/
theorem parseProperties_spec (args : List GoString) :
    ((∃ f, parseProperties args = .error f) ↔
      ∃ a ∈ args, '=' ∉ a ∨ keyOf a ∈ reservedKeys) ∧
    (∀ m, parseProperties args = .ok m →
      (∀ k ∈ reservedKeys, m.get k = none) ∧ ∀ k, m.get k = lastBinding args k) := by
  obtain ⟨h1, h2⟩ := parsePropertiesLoop_spec args []
  refine ⟨h1, ?_⟩
  intro m hm
  have hget : ∀ k, m.get k = lastBinding args k := by
    intro k
    have := h2 m hm k
    rw [this]
    cases lastBinding args k <;> rfl
  refine ⟨?_, hget⟩
  intro k hk
  rw [hget k]
  apply lastBinding_eq_none
  intro a ha hka
  have hno : ¬ ∃ a ∈ args, badArg a := by
    rw [← h1]
    rintro ⟨f, hf⟩
    have hm' : parsePropertiesLoop args [] = .ok m := hm
    rw [hf] at hm'
    cases hm'
  exact hno ⟨a, ha, Or.inr (hka ▸ hk)⟩

/-- Instance of the previous theorem: two arguments with the key "a"; the
second one wins. -/
theorem parseProperties_spec_witness :
    (∀ k ∈ reservedKeys, GoMap.get [("a".toList, "c".toList)] k = none) ∧
    ∀ k, GoMap.get [("a".toList, "c".toList)] k
      = lastBinding [" a = b ".toList, "a=c".toList] k :=
  (parseProperties_spec [" a = b ".toList, "a=c".toList]).2 [("a".toList, "c".toList)]
    (by decide)

end Launcher2
